import Mathlib

/-!
Verification development for the zerobuffer shared-memory ring-buffer
protocol (C++ implementation, `src/cpp`).

The shallow embedding below translates the relevant parts of
`src/cpp/src/writer.cpp`, `src/cpp/src/reader.cpp` and
`src/cpp/include/zerobuffer/types.h` into Lean:

* shared memory is modelled as a byte-addressable function `Mem := Nat → Nat`
  with little-endian multi-byte stores/loads mirroring the `memcpy` calls of
  the source (`FrameHeader` is two little-endian 64-bit words, the metadata
  length prefix is one 64-bit word);
* every `uint64_t` OIEB field update is performed modulo `2 ^ 64`
  (`add64` / `sub64`), matching C unsigned arithmetic;
* the process-level facts used by the code (`process_exists`,
  semaphore wait/signal counts) are explicit fields of the state;
* fallible operations return `Except`/explicit outcome types; the
  writer's unbounded retry loops are modelled with fuel.
-/

namespace ZeroBuffer

/-- `2 ^ 64`, the modulus of all `uint64_t` arithmetic in the OIEB. -/
def U64 : Nat := 18446744073709551616

theorem U64_pos : 0 < U64 := by decide

theorem U64_eq : U64 = 2 ^ 64 := by decide

/-- `uint64_t` addition. -/
def add64 (a b : Nat) : Nat := (a + b) % U64

/-- `uint64_t` subtraction (two's complement wraparound). -/
def sub64 (a b : Nat) : Nat := (a + (U64 - b % U64)) % U64

theorem add64_eq (a b : Nat) (h : a + b < U64) : add64 a b = a + b := by
  simp [add64, Nat.mod_eq_of_lt h]

theorem sub64_eq (a b : Nat) (hba : b ≤ a) (ha : a < U64) : sub64 a b = a - b := by
  have hb : b < U64 := lt_of_le_of_lt hba ha
  have hbm : b % U64 = b := Nat.mod_eq_of_lt hb
  have h1 : a + (U64 - b) = U64 + (a - b) := by omega
  have h2 : a - b < U64 := by omega
  simp only [sub64, hbm, h1, Nat.add_mod_left]
  exact Nat.mod_eq_of_lt h2

theorem add64_lt (a b : Nat) : add64 a b < U64 :=
  Nat.mod_lt _ U64_pos

theorem sub64_lt (a b : Nat) : sub64 a b < U64 :=
  Nat.mod_lt _ U64_pos

/-! ### Byte-addressable memory -/

/-- Byte-addressable memory: a map from byte offset to byte value. -/
def Mem : Type := Nat → Nat

/-- Store one byte (value truncated to a byte, as in C). -/
def store1 (m : Mem) (a v : Nat) : Mem :=
  fun x => if x = a then v % 256 else m x

/-- Store `n` bytes of `v` little-endian at offset `a` (one `memcpy` of an
`n`-byte little-endian integer). -/
def storeLE : Mem → Nat → Nat → Nat → Mem
  | m, _, 0, _ => m
  | m, a, n + 1, v => storeLE (store1 m a v) (a + 1) n (v / 256)

/-- Load `n` bytes little-endian from offset `a`. -/
def loadLE : Mem → Nat → Nat → Nat
  | _, _, 0 => 0
  | m, a, n + 1 => m a % 256 + 256 * loadLE m (a + 1) n

/-- Store a list of bytes at offset `a` (a `memcpy` of a buffer). -/
def storeBytes : Mem → Nat → List Nat → Mem
  | m, _, [] => m
  | m, a, b :: bs => storeBytes (store1 m a b) (a + 1) bs

/-- Load `n` bytes from offset `a` as a list. -/
def loadBytes : Mem → Nat → Nat → List Nat
  | _, _, 0 => []
  | m, a, n + 1 => m a % 256 :: loadBytes m (a + 1) n

theorem store1_ne (m : Mem) (a v x : Nat) (h : x ≠ a) : store1 m a v x = m x := by
  simp [store1, h]

theorem storeLE_out (m : Mem) (a n v x : Nat) (h : x < a ∨ a + n ≤ x) :
    storeLE m a n v x = m x := by
  induction n generalizing m a v with
  | zero => rfl
  | succ k ih =>
    show storeLE (store1 m a v) (a + 1) k (v / 256) x = m x
    rw [ih (store1 m a v) (a + 1) (v / 256) (by omega)]
    exact store1_ne m a v x (by omega)

theorem storeBytes_out (m : Mem) (a : Nat) (l : List Nat) (x : Nat)
    (h : x < a ∨ a + l.length ≤ x) : storeBytes m a l x = m x := by
  induction l generalizing m a with
  | nil => rfl
  | cons b bs ih =>
    show storeBytes (store1 m a b) (a + 1) bs x = m x
    rw [ih (store1 m a b) (a + 1) (by simp at h ⊢; omega)]
    exact store1_ne m a b x (by simp at h; omega)

theorem loadLE_congr (m1 m2 : Mem) (a n : Nat)
    (h : ∀ x, a ≤ x → x < a + n → m1 x = m2 x) : loadLE m1 a n = loadLE m2 a n := by
  induction n generalizing a with
  | zero => rfl
  | succ k ih =>
    show m1 a % 256 + 256 * loadLE m1 (a + 1) k = m2 a % 256 + 256 * loadLE m2 (a + 1) k
    rw [h a (le_refl a) (by omega), ih (a + 1) (fun x hx1 hx2 => h x (by omega) (by omega))]

theorem loadBytes_congr (m1 m2 : Mem) (a n : Nat)
    (h : ∀ x, a ≤ x → x < a + n → m1 x = m2 x) : loadBytes m1 a n = loadBytes m2 a n := by
  induction n generalizing a with
  | zero => rfl
  | succ k ih =>
    show m1 a % 256 :: loadBytes m1 (a + 1) k = m2 a % 256 :: loadBytes m2 (a + 1) k
    rw [h a (le_refl a) (by omega), ih (a + 1) (fun x hx1 hx2 => h x (by omega) (by omega))]

theorem loadLE_storeLE (m : Mem) (a n v : Nat) :
    loadLE (storeLE m a n v) a n = v % 256 ^ n := by
  induction n generalizing m a v with
  | zero => simp [loadLE, storeLE, Nat.mod_one]
  | succ k ih =>
    show loadLE (storeLE (store1 m a v) (a + 1) k (v / 256)) a (k + 1) = v % 256 ^ (k + 1)
    show (storeLE (store1 m a v) (a + 1) k (v / 256)) a % 256 +
        256 * loadLE (storeLE (store1 m a v) (a + 1) k (v / 256)) (a + 1) k = _
    rw [storeLE_out _ _ _ _ _ (Or.inl (by omega)), ih]
    show (if a = a then v % 256 else m a) % 256 + 256 * (v / 256 % 256 ^ k) = _
    have hpow : (256 : Nat) ^ (k + 1) = 256 * 256 ^ k := by ring
    rw [hpow, Nat.mod_mul]
    simp [Nat.mod_mod_of_dvd v (dvd_refl 256)]

theorem loadLE_storeLE_disjoint (m : Mem) (a n v b k : Nat)
    (h : a + n ≤ b ∨ b + k ≤ a) : loadLE (storeLE m a n v) b k = loadLE m b k :=
  loadLE_congr _ _ _ _ (fun x hx1 hx2 => storeLE_out m a n v x (by omega))

theorem loadLE_storeBytes_disjoint (m : Mem) (a : Nat) (l : List Nat) (b k : Nat)
    (h : a + l.length ≤ b ∨ b + k ≤ a) : loadLE (storeBytes m a l) b k = loadLE m b k :=
  loadLE_congr _ _ _ _ (fun x hx1 hx2 => storeBytes_out m a l x (by omega))

theorem loadBytes_storeLE_disjoint (m : Mem) (a n v b k : Nat)
    (h : a + n ≤ b ∨ b + k ≤ a) : loadBytes (storeLE m a n v) b k = loadBytes m b k :=
  loadBytes_congr _ _ _ _ (fun x hx1 hx2 => storeLE_out m a n v x (by omega))

theorem loadBytes_storeBytes (m : Mem) (a : Nat) (l : List Nat)
    (h : ∀ b ∈ l, b < 256) : loadBytes (storeBytes m a l) a l.length = l := by
  induction l generalizing m a with
  | nil => rfl
  | cons b bs ih =>
    show loadBytes (storeBytes (store1 m a b) (a + 1) bs) a (bs.length + 1) = b :: bs
    show (storeBytes (store1 m a b) (a + 1) bs) a % 256 ::
        loadBytes (storeBytes (store1 m a b) (a + 1) bs) (a + 1) bs.length = b :: bs
    rw [storeBytes_out _ _ _ _ (Or.inl (by omega)),
      ih (store1 m a b) (a + 1) (fun x hx => h x (List.mem_cons_of_mem b hx))]
    have hb : b < 256 := h b (List.mem_cons_self b bs)
    show (if a = a then b % 256 else m a) % 256 :: bs = b :: bs
    simp [Nat.mod_eq_of_lt hb]

theorem loadLE_lt (m : Mem) (a n : Nat) : loadLE m a n < 256 ^ n := by
  induction n generalizing a with
  | zero => simp [loadLE]
  | succ k ih =>
    show m a % 256 + 256 * loadLE m (a + 1) k < 256 ^ (k + 1)
    have h1 : m a % 256 < 256 := Nat.mod_lt _ (by omega)
    have h2 := ih (a + 1)
    have hpow : (256 : Nat) ^ (k + 1) = 256 * 256 ^ k := by ring
    omega

/-! ### Frame headers

`types.h`: `struct FrameHeader { uint64_t payload_size; uint64_t sequence_number; }`,
written and read through `memcpy` of the 16-byte struct; on the little-endian
targets of the code base this is two 8-byte little-endian words. -/

/-- `sizeof(FrameHeader)`. -/
def FRAME_HEADER : Nat := 16

/-- Read `FrameHeader::payload_size` at payload offset `p`. -/
def loadHeaderSize (m : Mem) (p : Nat) : Nat := loadLE m p 8

/-- Read `FrameHeader::sequence_number` at payload offset `p`. -/
def loadHeaderSeq (m : Mem) (p : Nat) : Nat := loadLE m (p + 8) 8

/-- `memcpy` a `FrameHeader{size, seq}` to payload offset `p`. -/
def storeHeader (m : Mem) (p size seq : Nat) : Mem :=
  storeLE (storeLE m p 8 size) (p + 8) 8 seq

theorem U64_eq_pow : U64 = 256 ^ 8 := by decide

theorem loadHeaderSize_storeHeader (m : Mem) (p size seq : Nat) :
    loadHeaderSize (storeHeader m p size seq) p = size % U64 := by
  unfold loadHeaderSize storeHeader
  rw [loadLE_storeLE_disjoint _ _ _ _ _ _ (Or.inr (by omega)), loadLE_storeLE, U64_eq_pow]

theorem loadHeaderSeq_storeHeader (m : Mem) (p size seq : Nat) :
    loadHeaderSeq (storeHeader m p size seq) p = seq % U64 := by
  unfold loadHeaderSeq storeHeader
  rw [loadLE_storeLE, U64_eq_pow]

theorem loadHeaderSize_storeHeader_disjoint (m : Mem) (p size seq q : Nat)
    (h : p + 16 ≤ q ∨ q + 8 ≤ p) :
    loadHeaderSize (storeHeader m p size seq) q = loadHeaderSize m q := by
  unfold loadHeaderSize storeHeader
  rw [loadLE_storeLE_disjoint _ _ _ _ _ _ (by omega),
    loadLE_storeLE_disjoint _ _ _ _ _ _ (by omega)]

theorem loadHeaderSeq_storeHeader_disjoint (m : Mem) (p size seq q : Nat)
    (h : p + 16 ≤ q + 8 ∨ q + 16 ≤ p) :
    loadHeaderSeq (storeHeader m p size seq) q = loadHeaderSeq m q := by
  unfold loadHeaderSeq storeHeader
  rw [loadLE_storeLE_disjoint _ _ _ _ _ _ (by omega),
    loadLE_storeLE_disjoint _ _ _ _ _ _ (by omega)]

theorem loadHeaderSize_storeBytes_disjoint (m : Mem) (a : Nat) (l : List Nat) (q : Nat)
    (h : a + l.length ≤ q ∨ q + 8 ≤ a) :
    loadHeaderSize (storeBytes m a l) q = loadHeaderSize m q :=
  loadLE_storeBytes_disjoint _ _ _ _ _ (by omega)

theorem loadHeaderSeq_storeBytes_disjoint (m : Mem) (a : Nat) (l : List Nat) (q : Nat)
    (h : a + l.length ≤ q + 8 ∨ q + 16 ≤ a) :
    loadHeaderSeq (storeBytes m a l) q = loadHeaderSeq m q :=
  loadLE_storeBytes_disjoint _ _ _ _ _ (by omega)

/-! ### System state

One buffer with its attached writer and reader.  OIEB fields are the
`uint64_t` fields of `types.h::OIEB` that the payload path touches; `wseq`
and `expected` are the process-local counters `Writer::Impl::sequence_number_`
and `Reader::Impl::expected_sequence_`; `semW`/`semR` are the counting
semaphores `sem-w-<name>` (data-available) and `sem-r-<name>`
(space-available); `held` records the `ReleaseInfo::frame_size` values of the
`Frame` objects returned by `read_frame` and not yet destroyed;
`writerAlive`/`readerAlive` model `platform::process_exists` for the
respective `*_pid`. -/

structure SysState where
  payloadSize : Nat
  free : Nat
  writePos : Nat
  readPos : Nat
  writtenCount : Nat
  readCount : Nat
  writerPid : Nat
  readerPid : Nat
  writerAlive : Bool
  readerAlive : Bool
  payload : Mem
  wseq : Nat
  expected : Nat
  semW : Nat
  semR : Nat
  held : List Nat
  framesWritten : Nat
  bytesWritten : Nat
  framesRead : Nat
  bytesRead : Nat

/-- The state right after `Reader` construction (reader.cpp:48-70, the region
is created zero-filled, all positions zero, `payload_free_bytes = payload_size`)
followed by a writer attaching (writer.cpp:34 sets `writer_pid`).
`n` is the (already 64-byte-aligned) payload size. -/
def initState (n : Nat) : SysState where
  payloadSize := n
  free := n
  writePos := 0
  readPos := 0
  writtenCount := 0
  readCount := 0
  writerPid := 42
  readerPid := 7
  writerAlive := true
  readerAlive := true
  payload := fun _ => 0
  wseq := 1
  expected := 1
  semW := 0
  semR := 0
  held := []
  framesWritten := 0
  bytesWritten := 0
  framesRead := 0
  bytesRead := 0

/-- Errors surfaced by the embedded operations (writer.h / reader.h). -/
inductive ZErr where
  | zeroBuffer (msg : String)
  | metadataAlreadyWritten
  | readerDead
  | writerDead
  | sequenceError (expected got : Nat)
  | invalidFrameSize
  deriving DecidableEq, Repr

/-- `Writer::Impl::is_reader_connected` (writer.cpp:326-329). -/
def readerConnected (s : SysState) : Bool :=
  s.readerPid ≠ 0 && s.readerAlive

/-- `Writer::Impl::get_continuous_free_space` (writer.cpp:132-149). -/
def continuousFree (s : SysState) : Nat :=
  if s.writePos ≥ s.readPos then
    let spaceToEnd := sub64 s.payloadSize s.writePos
    if s.readPos = 0 then spaceToEnd
    else max spaceToEnd s.readPos
  else
    sub64 s.readPos s.writePos

/-- The part of `Writer::Impl::write_frame` after the space-wait loop
(writer.cpp:184-232): optional wrap marker, frame header + data `memcpy`,
position/accounting updates, data-available signal.  `data.length` is the
`size` argument. -/
def writeCommit (s : SysState) (data : List Nat) : SysState :=
  let size := data.length
  let total := FRAME_HEADER + size
  let spaceToEnd := sub64 s.payloadSize s.writePos
  -- wrap handling (writer.cpp:186-205)
  let s1 :=
    if spaceToEnd < total ∧ 0 < s.readPos then
      let s0 :=
        if FRAME_HEADER ≤ spaceToEnd then
          { s with payload := storeHeader s.payload s.writePos 0 0,
                   writtenCount := add64 s.writtenCount 1 }
        else s
      { s0 with free := sub64 s0.free spaceToEnd, writePos := 0 }
    else s
  -- frame header and data (writer.cpp:207-215)
  let mem1 := storeHeader s1.payload s1.writePos size s.wseq
  let mem2 := storeBytes mem1 (s1.writePos + FRAME_HEADER) data
  -- tracking and OIEB updates (writer.cpp:217-231)
  { s1 with payload := mem2,
            writePos := add64 s1.writePos total,
            wseq := add64 s.wseq 1,
            framesWritten := add64 s.framesWritten 1,
            bytesWritten := add64 s.bytesWritten size,
            free := sub64 s1.free total,
            writtenCount := add64 s1.writtenCount 1,
            semW := s.semW + 1 }

/-- Result of a `write_frame` call; the source has no way to report a full
buffer (there is no `BufferFullException` throw in writer.cpp), so the only
outcomes are success, an exception, or an eternally spinning wait loop
(`spin` = the fuel ran out while the loop was still waiting). -/
inductive WriteResult where
  | ok (s : SysState)
  | err (e : ZErr)
  | spin

/-- The space-wait loop of `Writer::Impl::write_frame` (writer.cpp:158-182):
re-check reader liveness, re-check continuous free space, otherwise wait up
to 5000 ms on `sem-r` and retry forever.  A semaphore wait consumes a signal
when one is pending and otherwise times out. -/
def writeLoop : Nat → SysState → Nat → WriteResult
  | 0, _, _ => .spin
  | fuel + 1, s, total =>
    if ¬ readerConnected s then .err .readerDead
    else if total ≤ continuousFree s then .ok s
    else if 0 < s.semR then writeLoop fuel { s with semR := s.semR - 1 } total
    else if ¬ readerConnected s then .err .readerDead
    else writeLoop fuel s total

/-- `Writer::Impl::write_frame` (writer.cpp:151-232). -/
def write_frame (fuel : Nat) (s : SysState) (data : List Nat) : WriteResult :=
  if data.length = 0 then .err .invalidFrameSize
  else
    match writeLoop fuel s (FRAME_HEADER + data.length) with
    | .ok s' => .ok (writeCommit s' data)
    | .err e => .err e
    | .spin => .spin

/-- `Reader::Impl::signal_frame_consumed` (reader.cpp:336-351): credit
`payload_free_bytes` by the released `ReleaseInfo::frame_size` and signal
space-available. -/
def signalFrameConsumed (s : SysState) (frameSize : Nat) : SysState :=
  { s with free := add64 s.free frameSize, semR := s.semR + 1 }

/-- The `zerobuffer::Frame` of types.h:76-158: `data_` (here the bytes it
points at, `none` = `nullptr`), `size_`, `sequence_`, and `release_info_`
(`none` models a null `reader_impl`; `some n` a live release token of
`frame_size = n`). -/
structure FrameObj where
  data : Option (List Nat)
  size : Nat
  seq : Nat
  releaseInfo : Option Nat
  deriving DecidableEq, Repr

/-- `Frame::Frame()` — the invalid frame (types.h:92). -/
def blankFrame : FrameObj := ⟨none, 0, 0, none⟩

/-- `Frame::valid()` (types.h:144): `data_ != nullptr`. -/
def FrameObj.valid (f : FrameObj) : Bool := f.data.isSome

/-- `Frame::~Frame()` (types.h:133-137): release exactly when
`release_info_.reader_impl` is non-null, via `signal_frame_consumed`. -/
def destroyFrame (f : FrameObj) (s : SysState) : SysState :=
  match f.releaseInfo with
  | some sz => signalFrameConsumed s sz
  | none => s

/-- `Frame::Frame(Frame&&)` (types.h:95-103): the new frame takes all fields,
the moved-from frame is cleared.  Returns (destination, moved-from source). -/
def frameMoveCtor (f : FrameObj) : FrameObj × FrameObj :=
  (f, blankFrame)

/-- `Frame::operator=(Frame&&)` (types.h:106-126) for distinct objects:
release the current frame if valid, take the source's fields, clear the
source.  Returns (new target, cleared source, state after any release). -/
def frameMoveAssign (tgt src : FrameObj) (s : SysState) :
    FrameObj × FrameObj × SysState :=
  match tgt.releaseInfo with
  | some sz => (src, blankFrame, signalFrameConsumed s sz)
  | none => (src, blankFrame, s)

/-- Outcome of the body of `read_frame_with_timeout` after a successful (or
timed-out) semaphore wait.  Errors and retries carry the state because the
OIEB mutations already performed (e.g. wrap-marker consumption) persist in
shared memory when an exception is thrown or the loop continues. -/
inductive ReadOutcome where
  | frame (f : FrameObj) (s : SysState)
  | err (e : ZErr) (s : SysState)
  | retry (s : SysState)

/-- State carried by a `ReadOutcome`. -/
def ReadOutcome.state : ReadOutcome → SysState
  | .frame _ s => s
  | .err _ s => s
  | .retry s => s

/-- Wrap-marker consumption (reader.cpp:232-258): credit the wasted tail
`payload_size − payload_read_pos`, move to offset 0, count the marker. -/
def consumeWrap (s : SysState) : SysState :=
  { s with free := add64 s.free (sub64 s.payloadSize s.readPos),
           readPos := 0,
           readCount := add64 s.readCount 1 }

/-- Frame construction and final bookkeeping (reader.cpp:301-332).
`hsize` is `header->payload_size` at frame-creation time, `total` the
(possibly stale, see the defensive-wrap path) `total_frame_size`. -/
def finishRead (s : SysState) (hsize total : Nat) : ReadOutcome :=
  let f : FrameObj :=
    { data := some (loadBytes s.payload (s.readPos + FRAME_HEADER) hsize),
      size := hsize,
      seq := loadHeaderSeq s.payload s.readPos,
      releaseInfo := some total }
  let rp := add64 s.readPos total
  let rp := if s.payloadSize ≤ rp then rp - s.payloadSize else rp
  .frame f
    { s with readPos := rp,
             readCount := add64 s.readCount 1,
             expected := add64 s.expected 1,
             framesRead := add64 s.framesRead 1,
             bytesRead := add64 s.bytesRead hsize }

/-- Validation and the defensive implicit-wrap branch (reader.cpp:260-299),
run on the state after any wrap-marker handling. -/
def readParse (s : SysState) : ReadOutcome :=
  let hsize := loadHeaderSize s.payload s.readPos
  let hseq := loadHeaderSeq s.payload s.readPos
  if hseq ≠ s.expected then .err (.sequenceError s.expected hseq) s
  else if hsize = 0 then .err (.zeroBuffer "Invalid frame size: 0") s
  else
    let total := add64 FRAME_HEADER hsize
    if s.payloadSize < add64 s.readPos total then
      if s.writePos < s.readPos then
        -- "Writer has wrapped, we should wrap too" (reader.cpp:275-294);
        -- note total is NOT recomputed from the re-read header.
        let s' := { s with
          free := add64 s.free (sub64 s.payloadSize s.readPos), readPos := 0 }
        let hseq' := loadHeaderSeq s'.payload 0
        if hseq' ≠ s'.expected then .err (.sequenceError s'.expected hseq') s'
        else finishRead s' (loadHeaderSize s'.payload 0) total
      else .retry s
    else finishRead s hsize total

/-- The loop body of `read_frame_with_timeout` after the `sem-w` wait
(reader.cpp:216-332). -/
def readFrameBody (s : SysState) : ReadOutcome :=
  if s.writerPid = 0 ∧ s.writtenCount ≤ s.readCount then .err .writerDead s
  else if loadHeaderSize s.payload s.readPos = 0 then readParse (consumeWrap s)
  else readParse s

/-- One pass of `read_frame_with_timeout` including the semaphore wait
(reader.cpp:192-215): a wait with no pending signal times out and returns an
invalid `Frame()` (or throws `WriterDeadException` when the writer process
has died); a successful wait consumes one signal and runs the body. -/
def readFrameOnce (s : SysState) : ReadOutcome :=
  if s.semW = 0 then
    if s.writerPid ≠ 0 ∧ ¬ s.writerAlive then .err .writerDead s
    else .frame blankFrame s
  else readFrameBody { s with semW := s.semW - 1 }

/-- System-level effect of one `read_frame` call: a returned valid frame's
release token joins the outstanding set `held` (the caller now owns a live
`Frame` object); a retry leaves the loop re-waiting (modelled as one step). -/
def stepReadSys (s : SysState) : SysState :=
  match readFrameOnce s with
  | .frame f s' =>
    match f.releaseInfo with
    | some sz => { s' with held := s'.held ++ [sz] }
    | none => s'
  | .err _ s' => s'
  | .retry s' => s'

/-- Release the `i`-th outstanding frame (destruction of that `Frame` object,
types.h:133-137 + reader.cpp:336-351); out-of-range indices are no-ops. -/
def releaseHeld (s : SysState) (i : Nat) : SysState :=
  if h : i < s.held.length then
    { signalFrameConsumed s (s.held.get ⟨i, h⟩) with
        held := s.held.take i ++ s.held.drop (i + 1) }
  else s

/-! ### Schedule-driven executions

`runCmds` runs an interleaving of writer and reader calls against one
buffer, recording the frames emitted by successful reads and the sequence
numbers the writer committed.  A write that would block (insufficient
continuous space) makes no progress in that step; a thrown exception halts
the schedule. -/

inductive Cmd where
  | write (data : List Nat)
  | read
  | release (i : Nat)
  deriving Repr

structure RunState where
  sys : SysState
  frames : List FrameObj
  wlog : List Nat
  halted : Bool

def runCmd (rs : RunState) (c : Cmd) : RunState :=
  if rs.halted then rs
  else
    match c with
    | .write data =>
      if data.length = 0 then { rs with halted := true }
      else if ¬ readerConnected rs.sys then { rs with halted := true }
      else if FRAME_HEADER + data.length ≤ continuousFree rs.sys then
        { rs with sys := writeCommit rs.sys data, wlog := rs.wlog ++ [rs.sys.wseq] }
      else rs
    | .read =>
      match readFrameOnce rs.sys with
      | .frame f s' =>
        match f.releaseInfo with
        | some sz =>
          { rs with sys := { s' with held := s'.held ++ [sz] },
                    frames := rs.frames ++ [f] }
        | none => { rs with sys := s' }
      | .err _ s' => { rs with sys := s', halted := true }
      | .retry s' => { rs with sys := s' }
    | .release i => { rs with sys := releaseHeld rs.sys i }

def initRun (n : Nat) : RunState :=
  { sys := initState n, frames := [], wlog := [], halted := false }

def runCmds (rs : RunState) (cmds : List Cmd) : RunState :=
  cmds.foldl runCmd rs

/-! ### Metadata block

The metadata block lives in its own region between the OIEB and the payload
(reader.cpp:69, writer.cpp:41-42); its state is independent of the payload
ring.  `metadataWritten` is the writer-local flag
`Writer::Impl::metadata_written_`, initialised at connect time from
`oieb->metadata_written_bytes > 0` (writer.cpp:45). -/

structure MetaState where
  metadataSize : Nat
  metadataFreeBytes : Nat
  metadataWrittenBytes : Nat
  mem : Mem

/-- Writer-side flag init (writer.cpp:45). -/
def writerMetadataFlag (st : MetaState) : Bool :=
  0 < st.metadataWrittenBytes

/-- `Writer::Impl::set_metadata` (writer.cpp:103-130).  Returns the updated
writer flag and metadata state; exceptions leave everything unchanged (the
throw happens before any store). -/
def set_metadata (mw : Bool) (st : MetaState) (data : List Nat) :
    Except ZErr (Bool × MetaState) :=
  if mw then .error .metadataAlreadyWritten
  else
    let total := 8 + data.length
    if st.metadataSize < total then .error (.zeroBuffer "Metadata too large for buffer")
    else
      let mem1 := storeLE st.mem 0 8 data.length
      let mem2 := if 0 < data.length then storeBytes mem1 8 data else mem1
      .ok (true,
        { st with mem := mem2,
                  metadataWrittenBytes := add64 0 total,
                  metadataFreeBytes := sub64 st.metadataSize total })

/-- `Reader::Impl::get_metadata` (reader.cpp:152-169). -/
def get_metadata (st : MetaState) : Except ZErr (List Nat) :=
  if st.metadataWrittenBytes = 0 then .ok []
  else
    let metaSize := loadLE st.mem 0 8
    if metaSize = 0 ∨ sub64 st.metadataWrittenBytes 8 < metaSize then
      .error (.zeroBuffer "Invalid metadata size")
    else .ok (loadBytes st.mem 8 metaSize)

/-! ### Writer connection (spec-modelled)

Modelled from the spec: the `Writer` constructor that validates the
versioned OIEB layout of the shipped `types.h` (32-bit `oieb_size` at offset
0, `ProtocolVersion` at offset 4) is missing from `src/` —
`src/cpp/src/writer.cpp:19` reads `oieb->operation_size`, a field that the
`OIEB` struct in `src/cpp/include/zerobuffer/types.h` does not declare, so
that constructor belongs to the older, unversioned layout.  The model
follows spec §4.3: «Open shared region by name. Validate `oieb_size == 128`
and `version.major == 1`», failing with `VersionMismatch` on a major-version
mismatch, then the reader/other-writer liveness checks, and only then
attaches by setting `writer_pid`. -/

structure OIEBHeader where
  oiebSize : Nat
  vMajor : Nat
  vMinor : Nat
  vPatch : Nat
  readerPid : Nat
  writerPid : Nat
  readerAlive : Bool
  writerAlive : Bool
  deriving DecidableEq, Repr

inductive ConnectErr where
  | invalidOiebSize
  | versionMismatch
  | noReader
  | writerAlreadyConnected
  deriving DecidableEq, Repr

def writerConnect (o : OIEBHeader) (myPid : Nat) : Except ConnectErr OIEBHeader :=
  if o.oiebSize ≠ 128 then .error .invalidOiebSize
  else if o.vMajor ≠ 1 then .error .versionMismatch
  else if o.readerPid = 0 ∨ ¬ o.readerAlive then .error .noReader
  else if o.writerPid ≠ 0 ∧ o.writerAlive then .error .writerAlreadyConnected
  else .ok { o with writerPid := myPid }

/-! ### Helper lemmas shared between the claim theorems -/

/-- When the reader stays alive, no signal is pending and the continuous
free space stays short of the requested total, the space-wait loop of
`write_frame` makes no progress for any amount of fuel: the code has no exit
other than success or `ReaderDeadException`. -/
theorem writeLoop_spin (s : SysState) (total : Nat)
    (hconn : readerConnected s = true) (hcf : continuousFree s < total)
    (hsem : s.semR = 0) : ∀ fuel, writeLoop fuel s total = .spin := by
  intro fuel
  induction fuel with
  | zero => rfl
  | succ k ih =>
    unfold writeLoop
    simp [hconn, hsem, Nat.not_le.mpr hcf, ih]

/-- `readParse` never touches the semaphores: the reader signals
space-available only from `signal_frame_consumed`, never from the read path. -/
theorem readParse_sem (t : SysState) (out : ReadOutcome) (h : readParse t = out) :
    out.state.semW = t.semW ∧ out.state.semR = t.semR ∧ out.state.wseq = t.wseq := by
  unfold readParse finishRead at h
  dsimp only at h
  split at h
  · cases h; exact ⟨rfl, rfl, rfl⟩
  · split at h
    · cases h; exact ⟨rfl, rfl, rfl⟩
    · split at h
      · split at h
        · split at h
          · cases h; exact ⟨rfl, rfl, rfl⟩
          · cases h; exact ⟨rfl, rfl, rfl⟩
        · cases h; exact ⟨rfl, rfl, rfl⟩
      · cases h; exact ⟨rfl, rfl, rfl⟩

/-- `readParse` leaves `expected_sequence_` unchanged on every non-frame
outcome (the increment happens only after a frame is produced). -/
theorem readParse_expected_err (t : SysState) (e : ZErr) (st : SysState)
    (h : readParse t = .err e st) : st.expected = t.expected := by
  unfold readParse finishRead at h
  dsimp only at h
  split at h
  · cases h; rfl
  · split at h
    · cases h; rfl
    · split at h
      · split at h
        · split at h
          · cases h; rfl
          · cases h
        · cases h
      · cases h

theorem readParse_expected_retry (t : SysState) (st : SysState)
    (h : readParse t = .retry st) : st.expected = t.expected := by
  unfold readParse finishRead at h
  dsimp only at h
  split at h
  · cases h
  · split at h
    · cases h
    · split at h
      · split at h
        · split at h
          · cases h
          · cases h
        · cases h; rfl
      · cases h

/-- Every valid frame produced by a `readParse` pass carries the reader's
current `expected_sequence_`, and the post-state's counter is incremented by
exactly one: the code throws `SequenceError` on any other header. -/
theorem readParse_frame_seq (t : SysState) (f : FrameObj) (st : SysState)
    (h : readParse t = .frame f st) :
    f.seq = t.expected ∧ st.expected = add64 t.expected 1 ∧
    f.releaseInfo = some (add64 FRAME_HEADER (loadHeaderSize t.payload t.readPos)) := by
  unfold readParse finishRead at h
  dsimp only at h
  split at h
  · cases h
  · next hseq =>
    rw [not_not] at hseq
    split at h
    · cases h
    · split at h
      · split at h
        · split at h
          · cases h
          · next hseq2 =>
            rw [not_not] at hseq2
            cases h
            exact ⟨hseq2, rfl, rfl⟩
        · cases h
      · cases h
        exact ⟨hseq, rfl, rfl⟩

/-- Any valid frame delivered by a `read_frame` pass carries the reader's
pre-call `expected_sequence_`, which the call then increments by one. -/
theorem readFrameOnce_frame_seq (s : SysState) (f : FrameObj) (s' : SysState)
    (h : readFrameOnce s = .frame f s') (hv : f.releaseInfo.isSome = true) :
    f.seq = s.expected ∧ s'.expected = add64 s.expected 1 := by
  unfold readFrameOnce at h
  split at h
  · split at h
    · cases h
    · cases h
      simp [blankFrame] at hv
  · unfold readFrameBody at h
    split at h
    · cases h
    · split at h
      · exact ⟨(readParse_frame_seq _ _ _ h).1, (readParse_frame_seq _ _ _ h).2.1⟩
      · exact ⟨(readParse_frame_seq _ _ _ h).1, (readParse_frame_seq _ _ _ h).2.1⟩

/-- The only frame without a release token a `read_frame` pass can return is
the invalid timeout frame, which leaves the state untouched. -/
theorem readFrameOnce_frame_none (s : SysState) (f : FrameObj) (s' : SysState)
    (h : readFrameOnce s = .frame f s') (hv : f.releaseInfo = none) : s' = s := by
  unfold readFrameOnce at h
  split at h
  · split at h
    · cases h
    · cases h; rfl
  · unfold readFrameBody at h
    split at h
    · cases h
    · split at h
      · have h2 := (readParse_frame_seq _ _ _ h).2.2
        rw [hv] at h2
        cases h2
      · have h2 := (readParse_frame_seq _ _ _ h).2.2
        rw [hv] at h2
        cases h2

theorem readFrameOnce_err_expected (s : SysState) (e : ZErr) (s' : SysState)
    (h : readFrameOnce s = .err e s') : s'.expected = s.expected := by
  unfold readFrameOnce at h
  split at h
  · split at h
    · cases h; rfl
    · cases h
  · unfold readFrameBody at h
    split at h
    · cases h; rfl
    · split at h
      · have h9 := readParse_expected_err _ _ _ h
        exact h9
      · have h9 := readParse_expected_err _ _ _ h
        exact h9

theorem readFrameOnce_retry_expected (s : SysState) (s' : SysState)
    (h : readFrameOnce s = .retry s') : s'.expected = s.expected := by
  unfold readFrameOnce at h
  split at h
  · split at h
    · cases h
    · cases h
  · unfold readFrameBody at h
    split at h
    · cases h
    · split at h
      · have h9 := readParse_expected_retry _ _ h
        exact h9
      · have h9 := readParse_expected_retry _ _ h
        exact h9

/-- The read path never touches the writer's sequence counter. -/
theorem readFrameOnce_wseq (s : SysState) (out : ReadOutcome)
    (h : readFrameOnce s = out) : out.state.wseq = s.wseq := by
  unfold readFrameOnce at h
  split at h
  · split at h
    · subst h; rfl
    · subst h; rfl
  · unfold readFrameBody at h
    split at h
    · subst h; rfl
    · split at h
      · have h9 := (readParse_sem _ _ h).2.2
        exact h9
      · have h9 := (readParse_sem _ _ h).2.2
        exact h9

/-! ### Claim theorems -/

/-- C3: a frame of size exactly `payload_size − 16` fits — on an empty ring
`write_frame` succeeds immediately — but for any strictly larger size the
code never raises `FrameTooLarge`: `write_frame` has no size-versus-capacity
check at all (writer.cpp:151-182), so an oversized request loops on the
5-second space wait forever (`.spin` for every amount of fuel), although
`FrameTooLargeException` is declared in writer.h:81-84.  The second conjunct
evaluates the buggy behaviour at payload size 64 and frame size 49. -/
theorem write_frame_exact_fit_and_oversized_spin :
    (∀ (n : Nat) (data : List Nat), 16 < n → n < U64 → data.length = n - 16 →
      write_frame 1 (initState n) data = .ok (writeCommit (initState n) data)) ∧
    (∀ fuel, write_frame fuel (initState 64) (List.replicate 49 0) = .spin) := by
  constructor
  · intro n data hn hnu hlen
    have hlen0 : data.length ≠ 0 := by omega
    have hcf : continuousFree (initState n) = n := by
      unfold continuousFree initState
      simp [sub64_eq n 0 (Nat.zero_le n) hnu]
    unfold write_frame
    rw [if_neg hlen0]
    have hloop : writeLoop 1 (initState n) (FRAME_HEADER + data.length) = .ok (initState n) := by
      unfold writeLoop
      have hconn : readerConnected (initState n) = true := rfl
      rw [if_neg (by simp [hconn]), if_pos (by rw [hcf]; unfold FRAME_HEADER; omega)]
    rw [hloop]
  · intro fuel
    have hspin : ∀ k, writeLoop k (initState 64) (FRAME_HEADER + 49) = .spin := by
      apply writeLoop_spin
      · rfl
      · show continuousFree (initState 64) < FRAME_HEADER + 49
        have h64 : continuousFree (initState 64) = 64 := by decide
        rw [h64]; decide
      · rfl
    unfold write_frame
    rw [if_neg (by simp), List.length_replicate, hspin fuel]

/-- C3 witness: the first conjunct applied at payload size 64 and a
48-byte frame. -/
theorem write_frame_exact_fit_witness :
    write_frame 1 (initState 64) (List.replicate 48 3) =
      .ok (writeCommit (initState 64) (List.replicate 48 3)) :=
  write_frame_exact_fit_and_oversized_spin.1 64 (List.replicate 48 3)
    (by decide) (by decide) (by simp)

/-- C4: `write_frame` cannot fail with `BufferFull`.  On a full buffer
(payload size 64 holding one unread 48-byte frame) with the reader alive
and idle, the writer re-waits on the space semaphore in 5-second slices
forever — `.spin` for every amount of fuel — because writer.cpp:158-182 has
no user-configurable write timeout and no `BufferFullException` throw
(`set_write_timeout`, which the repository's own step definitions call,
does not exist on this `Writer`). -/
theorem write_frame_full_buffer_never_bufferfull :
    ∀ fuel, write_frame fuel (writeCommit (initState 64) (List.replicate 32 1))
      (List.replicate 32 1) = .spin := by
  intro fuel
  have hspin : ∀ k, writeLoop k (writeCommit (initState 64) (List.replicate 32 1))
      (FRAME_HEADER + 32) = .spin := by
    apply writeLoop_spin
    · rfl
    · show continuousFree (writeCommit (initState 64) (List.replicate 32 1)) < FRAME_HEADER + 32
      have h16 : continuousFree (writeCommit (initState 64) (List.replicate 32 1)) = 16 := by
        decide
      rw [h16]; decide
    · rfl
  unfold write_frame
  rw [if_neg (by simp), List.length_replicate, hspin fuel]

/-- C5 counterexample: the claim fails for the empty metadata vector.
`set_metadata` accepts it (8 + 0 ≤ metadata_size, writer.cpp:110-113) and
records `metadata_written_bytes = 8`, but `get_metadata` then rejects the
zero length prefix with «Invalid metadata size» (reader.cpp:162-164) instead
of returning the empty vector. -/
theorem set_metadata_empty_then_get_fails :
    ∃ st', set_metadata false ⟨64, 64, 0, fun _ => 0⟩ [] = .ok (true, st') ∧
      get_metadata st' = .error (.zeroBuffer "Invalid metadata size") := by
  refine ⟨_, rfl, ?_⟩
  rfl

/-- C5 (amended): for every nonempty byte vector accepted by `set_metadata`,
every subsequent `get_metadata` returns exactly those bytes (`get_metadata`
mutates nothing, so repetition is immaterial); the empty vector instead
makes `get_metadata` raise «Invalid metadata size». -/
theorem set_metadata_get_metadata_roundtrip :
    ∀ (st : MetaState) (data : List Nat), data ≠ [] → (∀ b ∈ data, b < 256) →
      8 + data.length ≤ st.metadataSize → st.metadataSize < U64 →
      ∃ st', set_metadata false st data = .ok (true, st') ∧
        get_metadata st' = .ok data := by
  intro st data hne hbytes hfit hsz
  have hlen : 0 < data.length := List.length_pos.mpr hne
  have hlenU : data.length < U64 := by omega
  have hw : add64 0 (8 + data.length) = 8 + data.length :=
    (add64_eq 0 (8 + data.length) (by omega)).trans (Nat.zero_add _)
  have hload : loadLE (storeBytes (storeLE st.mem 0 8 data.length) 8 data) 0 8 =
      data.length := by
    rw [loadLE_storeBytes_disjoint _ _ _ _ _ (Or.inr (by omega)), loadLE_storeLE,
      ← U64_eq_pow]
    exact Nat.mod_eq_of_lt hlenU
  refine ⟨⟨st.metadataSize, sub64 st.metadataSize (8 + data.length),
    add64 0 (8 + data.length),
    storeBytes (storeLE st.mem 0 8 data.length) 8 data⟩, ?_, ?_⟩
  · unfold set_metadata
    rw [if_neg (by simp), if_neg (by omega)]
    dsimp only
    rw [if_pos hlen]
  · unfold get_metadata
    dsimp only
    rw [hw, hload, if_neg (by omega), if_neg ?_]
    · rw [loadBytes_storeBytes (storeLE st.mem 0 8 data.length) 8 data hbytes]
    · rw [sub64_eq (8 + data.length) 8 (by omega) (by omega)]
      omega

/-- C5 witness: the amended round trip at a concrete 3-byte metadata
vector. -/
theorem set_metadata_get_metadata_roundtrip_witness :
    ∃ st', set_metadata false ⟨64, 64, 0, fun _ => 0⟩ [1, 2, 3] = .ok (true, st') ∧
      get_metadata st' = .ok [1, 2, 3] :=
  set_metadata_get_metadata_roundtrip ⟨64, 64, 0, fun _ => 0⟩ [1, 2, 3]
    (by decide) (by decide) (by decide) (by decide)

/-- C6 (spec-modelled, see `writerConnect`): writer construction fails when
the 32-bit `oieb_size` at offset 0 is not 128, fails with `VersionMismatch`
when `version.major` is not 1, and attaches (sets `writer_pid`) only when
validation succeeded — an error produces no attached state at all. -/
theorem writerConnect_validates_oieb :
    ∀ (o : OIEBHeader) (p : Nat),
      (o.oiebSize ≠ 128 → writerConnect o p = .error .invalidOiebSize) ∧
      (o.oiebSize = 128 → o.vMajor ≠ 1 → writerConnect o p = .error .versionMismatch) ∧
      (∀ s', writerConnect o p = .ok s' →
        s'.writerPid = p ∧ o.oiebSize = 128 ∧ o.vMajor = 1) := by
  intro o p
  refine ⟨?_, ?_, ?_⟩
  · intro h; unfold writerConnect; rw [if_pos h]
  · intro h1 h2; unfold writerConnect; rw [if_neg (by simp [h1]), if_pos h2]
  · intro s' h
    unfold writerConnect at h
    split at h
    · cases h
    · split at h
      · cases h
      · split at h
        · cases h
        · split at h
          · cases h
          · cases h
            exact ⟨rfl, by omega, by omega⟩

/-- C6 witness: the validation applied at a header with `oieb_size = 100`,
at one with bad major version, and at a good header. -/
theorem writerConnect_validates_oieb_witness :
    writerConnect ⟨100, 1, 0, 0, 7, 0, true, true⟩ 42 = .error .invalidOiebSize ∧
    writerConnect ⟨128, 2, 0, 0, 7, 0, true, true⟩ 42 = .error .versionMismatch ∧
    (⟨128, 1, 0, 0, 7, 42, true, true⟩ : OIEBHeader).writerPid = 42 := by
  refine ⟨?_, ?_, rfl⟩
  · exact (writerConnect_validates_oieb ⟨100, 1, 0, 0, 7, 0, true, true⟩ 42).1 (by decide)
  · exact (writerConnect_validates_oieb ⟨128, 2, 0, 0, 7, 0, true, true⟩ 42).2.1 rfl (by decide)

/-- C9: `set_metadata` succeeds at most once.  A first call on a fresh
buffer (flag false, `metadata_written_bytes = 0`) with a fitting vector
transitions `metadata_written_bytes` from 0 to `8 + len` and sets
`metadata_free_bytes = metadata_size − (8 + len)`; every call with the
writer flag set — including the flag a re-attaching writer computes from a
nonzero `metadata_written_bytes` (writer.cpp:45) — fails with
`MetadataAlreadyWritten` before any store, leaving the metadata block and
every OIEB field untouched (the throw is the first statement). -/
theorem set_metadata_write_once :
    ∀ (st : MetaState) (d1 d2 : List Nat),
      (8 + d1.length ≤ st.metadataSize → st.metadataSize < U64 →
        ∃ st', set_metadata false st d1 = .ok (true, st') ∧
          st'.metadataWrittenBytes = 8 + d1.length ∧
          st'.metadataFreeBytes = st.metadataSize - (8 + d1.length) ∧
          st'.metadataSize = st.metadataSize ∧
          set_metadata true st' d2 = .error .metadataAlreadyWritten) ∧
      (set_metadata true st d2 = .error .metadataAlreadyWritten) ∧
      (0 < st.metadataWrittenBytes →
        set_metadata (writerMetadataFlag st) st d2 = .error .metadataAlreadyWritten) := by
  intro st d1 d2
  refine ⟨?_, rfl, ?_⟩
  · intro hfit hsz
    unfold set_metadata
    rw [if_neg (by simp), if_neg (by omega)]
    refine ⟨_, rfl, ?_, ?_, rfl, rfl⟩
    · show add64 0 (8 + d1.length) = 8 + d1.length
      exact (add64_eq 0 (8 + d1.length) (by omega)).trans (Nat.zero_add _)
    · show sub64 st.metadataSize (8 + d1.length) = st.metadataSize - (8 + d1.length)
      exact sub64_eq st.metadataSize (8 + d1.length) hfit hsz
  · intro h
    have hf : writerMetadataFlag st = true := by
      unfold writerMetadataFlag
      simp [h]
    rw [hf]
    rfl

/-- C9 witness: the write-once behaviour at a concrete 2-byte vector. -/
theorem set_metadata_write_once_witness :
    ∃ st', set_metadata false ⟨64, 64, 0, fun _ => 0⟩ [5, 6] = .ok (true, st') ∧
      st'.metadataWrittenBytes = 10 ∧
      set_metadata true st' [7] = .error .metadataAlreadyWritten := by
  obtain ⟨st', h1, h2, _, _, h5⟩ :=
    ((set_metadata_write_once ⟨64, 64, 0, fun _ => 0⟩ [5, 6] [7]).1 (by decide) (by decide))
  exact ⟨st', h1, h2, h5⟩

/-- C7: when the space from `payload_write_pos` to the end of the payload
region is at least 16 bytes but less than `16 + size` and
`payload_read_pos > 0` (writer.cpp:186-205; the hypotheses
`16 + len ≤ read_pos ≤ write_pos` are what the space-wait guard guarantees
on this branch), the writer stores an all-zero frame header at
`payload_write_pos`, increments `payload_written_count` once for the marker
(and once more for the frame itself), debits the whole tail
`payload_size − payload_write_pos` from `payload_free_bytes` (before the
frame's own `16 + size` debit), and resets `payload_write_pos` to 0 before
writing the frame there. -/
theorem writeCommit_emits_wrap_marker :
    ∀ (s : SysState) (data : List Nat),
      s.payloadSize < U64 → s.writePos ≤ s.payloadSize →
      16 ≤ sub64 s.payloadSize s.writePos →
      sub64 s.payloadSize s.writePos < FRAME_HEADER + data.length →
      0 < s.readPos → FRAME_HEADER + data.length ≤ s.readPos →
      s.readPos ≤ s.writePos →
      loadHeaderSize (writeCommit s data).payload s.writePos = 0 ∧
      loadHeaderSeq (writeCommit s data).payload s.writePos = 0 ∧
      (writeCommit s data).writtenCount = add64 (add64 s.writtenCount 1) 1 ∧
      (writeCommit s data).free =
        sub64 (sub64 s.free (sub64 s.payloadSize s.writePos))
          (FRAME_HEADER + data.length) ∧
      (writeCommit s data).writePos = add64 0 (FRAME_HEADER + data.length) ∧
      loadHeaderSize (writeCommit s data).payload 0 = data.length % U64 ∧
      loadHeaderSeq (writeCommit s data).payload 0 = s.wseq % U64 := by
  intro s data hN hWN htail16 htail hR hguard hRW
  have hW16 : 16 ≤ s.writePos := by
    have : 16 ≤ FRAME_HEADER + data.length := by unfold FRAME_HEADER; omega
    omega
  unfold writeCommit
  dsimp only
  rw [if_pos ⟨htail, hR⟩,
    if_pos (show FRAME_HEADER ≤ sub64 s.payloadSize s.writePos from htail16)]
  dsimp only
  have h16 : FRAME_HEADER = 16 := rfl
  refine ⟨?_, ?_, rfl, rfl, rfl, ?_, ?_⟩
  · rw [loadHeaderSize_storeBytes_disjoint _ _ _ _ (Or.inl (by simp; omega)),
      loadHeaderSize_storeHeader_disjoint _ _ _ _ _ (Or.inl (by omega)),
      loadHeaderSize_storeHeader]
    simp
  · rw [loadHeaderSeq_storeBytes_disjoint _ _ _ _ (Or.inl (by simp; omega)),
      loadHeaderSeq_storeHeader_disjoint _ _ _ _ _ (Or.inl (by omega)),
      loadHeaderSeq_storeHeader]
    simp
  · rw [loadHeaderSize_storeBytes_disjoint _ _ _ _ (Or.inr (by omega)),
      loadHeaderSize_storeHeader]
  · rw [loadHeaderSeq_storeBytes_disjoint _ _ _ _ (Or.inr (by omega)),
      loadHeaderSeq_storeHeader]

/-- C7 witness: the marker path evaluated at a concrete state — payload
size 128, writer at 112 (16-byte tail), reader at 64, frame of 32 data
bytes. -/
theorem writeCommit_emits_wrap_marker_witness :
    let s : SysState :=
      { initState 128 with writePos := 112, readPos := 64, free := 16,
                           wseq := 3, writtenCount := 2 }
    loadHeaderSize (writeCommit s (List.replicate 32 7)).payload 112 = 0 ∧
    (writeCommit s (List.replicate 32 7)).writtenCount = 4 ∧
    (writeCommit s (List.replicate 32 7)).writePos = 48 := by
  intro s
  obtain ⟨h1, _, h3, _, h5, _, _⟩ :=
    writeCommit_emits_wrap_marker s (List.replicate 32 7)
      (by decide) (by decide) (by decide) (by decide) (by decide) (by decide) (by decide)
  refine ⟨h1, ?_, ?_⟩
  · rw [h3]; rfl
  · rw [h5]; rfl

/-- C8: when `read_frame` finds a frame header with `payload_size == 0` at
`payload_read_pos` (reader.cpp:231-258), it credits `payload_free_bytes`
by `payload_size − payload_read_pos`, sets `payload_read_pos = 0`,
increments `payload_read_count`, and immediately continues parsing at
position 0 in the same pass: the data-available semaphore is consumed
exactly once for the whole pass, and the space-available semaphore is not
signalled on any outcome of the read path. -/
theorem readFrame_consumes_wrap_marker :
    ∀ (s : SysState), 0 < s.semW → s.writerPid ≠ 0 →
      loadHeaderSize s.payload s.readPos = 0 →
      readFrameOnce s = readParse (consumeWrap { s with semW := s.semW - 1 }) ∧
      (consumeWrap { s with semW := s.semW - 1 }).free =
        add64 s.free (sub64 s.payloadSize s.readPos) ∧
      (consumeWrap { s with semW := s.semW - 1 }).readPos = 0 ∧
      (consumeWrap { s with semW := s.semW - 1 }).readCount = add64 s.readCount 1 ∧
      (∀ out, readParse (consumeWrap { s with semW := s.semW - 1 }) = out →
        out.state.semW = s.semW - 1 ∧ out.state.semR = s.semR) := by
  intro s hsem hpid hmarker
  refine ⟨?_, rfl, rfl, rfl, ?_⟩
  · unfold readFrameOnce
    rw [if_neg (by omega)]
    unfold readFrameBody
    rw [if_neg (by simp [hpid]), if_pos hmarker]
  · intro out hout
    exact ⟨(readParse_sem _ out hout).1, (readParse_sem _ out hout).2.1⟩

/-- C8 witness: the marker path applied at a concrete state with a marker
header at read position 112 of a 128-byte payload. -/
theorem readFrame_consumes_wrap_marker_witness :
    let s : SysState :=
      { initState 128 with readPos := 112, free := 0, semW := 2,
                           payload := storeHeader (fun _ => 0) 112 0 0 }
    (consumeWrap { s with semW := s.semW - 1 }).free = 16 ∧
    (consumeWrap { s with semW := s.semW - 1 }).readPos = 0 ∧
    (consumeWrap { s with semW := s.semW - 1 }).readCount = 1 ∧
    readFrameOnce s = readParse (consumeWrap { s with semW := s.semW - 1 }) := by
  intro s
  refine ⟨by decide, rfl, by decide,
    (readFrame_consumes_wrap_marker s (by decide) (by decide) ?_).1⟩
  show loadHeaderSize (storeHeader (fun _ => 0) 112 0 0) 112 = 0
  rw [loadHeaderSize_storeHeader]
  simp

/-- Schedule reaching the defensive implicit-wrap path of
reader.cpp:272-299 with a crafted junk header.  Frame 2's payload places the
little-endian bytes of `32` at payload offset 113 and of `5` at 121; after
frames 1-4 are consumed the writer wraps barely (15-byte tail, too small for
a marker), leaving the reader at offset 113 where those stale bytes parse as
a header of size 32 with the expected sequence number 5. -/
def c10Cmds : List Cmd :=
  [.write (List.replicate 24 0),
   .write (List.replicate 57 0 ++ [32, 0, 0, 0, 0, 0, 0, 0] ++ [5, 0, 0, 0, 0, 0, 0]),
   .read, .write (List.replicate 16 1), .read, .read, .write (List.replicate 65 2),
   .read, .write (List.replicate 16 3), .read]

set_option maxRecDepth 10000 in
set_option maxHeartbeats 4000000 in
/-- C10 counterexample: the fifth valid Frame returned by `read_frame` on
the `c10Cmds` schedule has `size_ = 16` but a release token of
`frame_size = 48`: the implicit-wrap branch (reader.cpp:272-299) re-reads
the header after wrapping but keeps the stale `total_frame_size` computed
from the junk header, so this frame's destruction credits
`payload_free_bytes` by 48, not by `16 + size = 32`, refuting the claim's
«exactly one credit of payload_free_bytes by 16 + size». -/
theorem frame_destruction_credit_not_16_plus_size :
    ((runCmds (initRun 128) c10Cmds).frames.map fun f => (f.valid, f.size, f.releaseInfo)) =
      [(true, 24, some 40), (true, 72, some 88), (true, 16, some 32),
       (true, 65, some 81), (true, 16, some 48)] ∧
    (∀ (s : SysState) (f : FrameObj), f.releaseInfo = some 48 →
      destroyFrame f s = { s with free := add64 s.free 48, semR := s.semR + 1 }) ∧
    48 ≠ FRAME_HEADER + 16 := by
  refine ⟨by decide, ?_, by decide⟩
  intro s f hf
  unfold destroyFrame
  rw [hf]
  rfl

/-- C10 (amended): every valid Frame is released exactly once, where the
release credits `payload_free_bytes` by the `frame_size` recorded in its
`ReleaseInfo` — this equals `16 + size` for every frame created outside the
defensive implicit-wrap branch — and signals space-available exactly once:
the destructor of an invalid or moved-from frame performs no release, move
construction transfers the token and clears the source, and move assignment
over a valid frame releases that frame exactly once and then takes the
source's token. -/
theorem frame_release_exactly_once :
    (∀ s : SysState, destroyFrame blankFrame s = s) ∧
    (∀ (f : FrameObj) (s : SysState),
      (frameMoveCtor f).1 = f ∧ (frameMoveCtor f).2.releaseInfo = none ∧
      (frameMoveCtor f).2.valid = false ∧ destroyFrame (frameMoveCtor f).2 s = s) ∧
    (∀ (f : FrameObj) (n : Nat) (s : SysState), f.releaseInfo = some n →
      destroyFrame f s = { s with free := add64 s.free n, semR := s.semR + 1 }) ∧
    (∀ (f : FrameObj) (s : SysState), f.releaseInfo = none → destroyFrame f s = s) ∧
    (∀ (tgt src : FrameObj) (n : Nat) (s : SysState), tgt.releaseInfo = some n →
      frameMoveAssign tgt src s =
        (src, blankFrame, { s with free := add64 s.free n, semR := s.semR + 1 })) ∧
    (∀ (tgt src : FrameObj) (s : SysState), tgt.releaseInfo = none →
      frameMoveAssign tgt src s = (src, blankFrame, s)) ∧
    (∀ (t : SysState) (f : FrameObj) (s' : SysState), readParse t = .frame f s' →
      add64 t.readPos (add64 FRAME_HEADER (loadHeaderSize t.payload t.readPos)) ≤
        t.payloadSize →
      FRAME_HEADER + loadHeaderSize t.payload t.readPos < U64 →
      f.releaseInfo = some (FRAME_HEADER + f.size)) := by
  refine ⟨fun s => rfl, ?_, ?_, ?_, ?_, ?_, ?_⟩
  · intro f s
    exact ⟨rfl, rfl, rfl, rfl⟩
  · intro f n s hf
    unfold destroyFrame
    rw [hf]
    rfl
  · intro f s hf
    unfold destroyFrame
    rw [hf]
  · intro tgt src n s ht
    unfold frameMoveAssign
    rw [ht]
    rfl
  · intro tgt src s ht
    unfold frameMoveAssign
    rw [ht]
  · intro t f s' h hfit hsz
    unfold readParse at h
    dsimp only at h
    split at h
    · cases h
    · split at h
      · cases h
      · split at h
        · exact absurd (by omega) (not_lt.mpr hfit)
        · unfold finishRead at h
          cases h
          show some (add64 FRAME_HEADER (loadHeaderSize t.payload t.readPos)) = _
          rw [add64_eq _ _ hsz]

/-- C10 amended-claim witness: the release laws applied at a concrete valid
frame with token 33 and at a concrete moved-from frame. -/
theorem frame_release_exactly_once_witness :
    destroyFrame ⟨some [7], 1, 1, some 17⟩ (initState 64) =
      { initState 64 with free := 81, semR := 1 } ∧
    destroyFrame (frameMoveCtor ⟨some [7], 1, 1, some 17⟩).2 (initState 64) = initState 64 := by
  constructor
  · rw [frame_release_exactly_once.2.2.1 ⟨some [7], 1, 1, some 17⟩ 17 (initState 64) rfl]
    have h81 : add64 (initState 64).free 17 = 81 := by decide
    rw [h81]
    rfl
  · exact (frame_release_exactly_once.2.1 ⟨some [7], 1, 1, some 17⟩ (initState 64)).2.2.2

/-- `write_frame` leaves the reader's expected-sequence counter alone. -/
theorem writeCommit_expected (s : SysState) (data : List Nat) :
    (writeCommit s data).expected = s.expected := by
  unfold writeCommit
  dsimp only
  split
  · split <;> rfl
  · rfl

theorem releaseHeld_fields (s : SysState) (i : Nat) :
    (releaseHeld s i).expected = s.expected ∧ (releaseHeld s i).wseq = s.wseq := by
  unfold releaseHeld
  split <;> exact ⟨rfl, rfl⟩

/-- The four counter invariants of the sequence-number induction: the
reader's `expected_sequence_` is one past the number of valid frames
delivered so far, those frames carry sequence numbers 1, 2, …, the writer's
`sequence_number_` is one past the number of committed real frames, and the
committed real frames were numbered 1, 2, … in order. -/
def c1Inv (r : RunState) : Prop :=
  r.sys.expected = 1 + r.frames.length ∧
  r.frames.map FrameObj.seq = List.range' 1 r.frames.length ∧
  r.sys.wseq = 1 + r.wlog.length ∧
  r.wlog = List.range' 1 r.wlog.length

theorem runCmd_c1 (r : RunState) (c : Cmd) (hInv : c1Inv r)
    (hb1 : 2 + r.frames.length < U64) (hb2 : 2 + r.wlog.length < U64) :
    c1Inv (runCmd r c) ∧
    (runCmd r c).frames.length ≤ r.frames.length + 1 ∧
    (runCmd r c).wlog.length ≤ r.wlog.length + 1 := by
  obtain ⟨h1, h2, h3, h4⟩ := hInv
  unfold runCmd
  split
  · exact ⟨⟨h1, h2, h3, h4⟩, Nat.le_succ _, Nat.le_succ _⟩
  · split
    · -- write
      next data =>
      split
      · exact ⟨⟨h1, h2, h3, h4⟩, Nat.le_succ _, Nat.le_succ _⟩
      · split
        · exact ⟨⟨h1, h2, h3, h4⟩, Nat.le_succ _, Nat.le_succ _⟩
        · split
          · refine ⟨⟨?_, h2, ?_, ?_⟩, by simp, by simp⟩
            · show (writeCommit r.sys data).expected = 1 + r.frames.length
              rw [writeCommit_expected, h1]
            · show (writeCommit r.sys data).wseq = 1 + (r.wlog ++ [r.sys.wseq]).length
              show add64 r.sys.wseq 1 = _
              rw [h3, add64_eq (1 + r.wlog.length) 1 (by omega)]
              simp only [List.length_append, List.length_cons, List.length_nil]
              omega
            · show r.wlog ++ [r.sys.wseq] = List.range' 1 (r.wlog ++ [r.sys.wseq]).length
              rw [h3, h4]
              simp [List.range'_1_concat, Nat.add_comm]
          · exact ⟨⟨h1, h2, h3, h4⟩, Nat.le_succ _, Nat.le_succ _⟩
    · -- read
      split
      · -- .frame f s'
        next f s' heq =>
        split
        · -- releaseInfo = some sz
          next sz heq2 =>
          have hseq := readFrameOnce_frame_seq r.sys f s' heq (by rw [heq2]; rfl)
          have hw := readFrameOnce_wseq r.sys _ heq
          refine ⟨⟨?_, ?_, ?_, h4⟩, by simp, by simp⟩
          · show s'.expected = 1 + (r.frames ++ [f]).length
            rw [hseq.2, h1, add64_eq (1 + r.frames.length) 1 (by omega)]
            simp only [List.length_append, List.length_cons, List.length_nil]
            omega
          · show (r.frames ++ [f]).map FrameObj.seq =
              List.range' 1 (r.frames ++ [f]).length
            rw [List.map_append, h2]
            simp only [List.map_cons, List.map_nil, List.length_append, List.length_cons,
              List.length_nil, hseq.1, h1]
            rw [List.range'_1_concat]
          · show s'.wseq = 1 + r.wlog.length
            rw [show s'.wseq = r.sys.wseq from hw, h3]
        · -- releaseInfo = none: the invalid timeout frame
          next heq2 =>
          have hs := readFrameOnce_frame_none r.sys f s' heq heq2
          rw [hs]
          exact ⟨⟨h1, h2, h3, h4⟩, Nat.le_succ _, Nat.le_succ _⟩
      · -- .err e s'
        next e s' heq =>
        have he := readFrameOnce_err_expected r.sys e s' heq
        have hw := readFrameOnce_wseq r.sys _ heq
        refine ⟨⟨?_, h2, ?_, h4⟩, Nat.le_succ _, Nat.le_succ _⟩
        · show s'.expected = 1 + r.frames.length
          rw [he, h1]
        · show s'.wseq = 1 + r.wlog.length
          rw [show s'.wseq = r.sys.wseq from hw, h3]
      · -- .retry s'
        next s' heq =>
        have he := readFrameOnce_retry_expected r.sys s' heq
        have hw := readFrameOnce_wseq r.sys _ heq
        refine ⟨⟨?_, h2, ?_, h4⟩, Nat.le_succ _, Nat.le_succ _⟩
        · show s'.expected = 1 + r.frames.length
          rw [he, h1]
        · show s'.wseq = 1 + r.wlog.length
          rw [show s'.wseq = r.sys.wseq from hw, h3]
    · -- release
      next i =>
      refine ⟨⟨?_, h2, ?_, h4⟩, Nat.le_succ _, Nat.le_succ _⟩
      · show (releaseHeld r.sys i).expected = 1 + r.frames.length
        rw [(releaseHeld_fields r.sys i).1, h1]
      · show (releaseHeld r.sys i).wseq = 1 + r.wlog.length
        rw [(releaseHeld_fields r.sys i).2, h3]

theorem runCmds_c1 (cmds : List Cmd) (r : RunState) (hInv : c1Inv r)
    (hb1 : 2 + r.frames.length + cmds.length < U64)
    (hb2 : 2 + r.wlog.length + cmds.length < U64) :
    c1Inv (runCmds r cmds) := by
  induction cmds generalizing r with
  | nil => exact hInv
  | cons c rest ih =>
    show c1Inv (runCmds (runCmd r c) rest)
    obtain ⟨hI, hl1, hl2⟩ := runCmd_c1 r c hInv (by simp at hb1; omega) (by simp at hb2; omega)
    exact ih (runCmd r c) hI (by simp at hb1 ⊢; omega) (by simp at hb2 ⊢; omega)

/-- C1: along any schedule of writer and reader calls on one buffer, the
valid frames delivered by `read_frame` carry sequence numbers 1, 2, 3, … in
order (the i-th valid frame carries i), the writer stamps its committed
real frames 1, 2, 3, … (wrap markers carry sequence 0 — see
`writeCommit_emits_wrap_marker` — and do not advance `sequence_number_`,
which `wlog` reflects: the logged numbers stay consecutive across wraps),
and whenever the header's sequence number differs from the reader's
expected counter the reader raises `SequenceError(expected, got)` and
changes nothing. -/
theorem reader_delivers_consecutive_sequence_numbers :
    ∀ (n : Nat) (cmds : List Cmd), 2 + cmds.length < U64 →
      ((runCmds (initRun n) cmds).frames.map FrameObj.seq =
        List.range' 1 (runCmds (initRun n) cmds).frames.length ∧
       (runCmds (initRun n) cmds).wlog =
        List.range' 1 (runCmds (initRun n) cmds).wlog.length) ∧
      (∀ (s : SysState) (got : Nat),
        ¬ (s.writerPid = 0 ∧ s.writtenCount ≤ s.readCount) →
        loadHeaderSize s.payload s.readPos ≠ 0 →
        got = loadHeaderSeq s.payload s.readPos → got ≠ s.expected →
        readFrameBody s = .err (.sequenceError s.expected got) s) := by
  intro n cmds hb
  constructor
  · have hI := runCmds_c1 cmds (initRun n) ⟨rfl, rfl, rfl, rfl⟩
      (by simpa using hb) (by simpa using hb)
    exact ⟨hI.2.1, hI.2.2.2⟩
  · intro s got hdead hsize hgot hne
    unfold readFrameBody
    rw [if_neg hdead, if_neg hsize]
    unfold readParse
    dsimp only
    rw [if_pos (by rw [← hgot]; exact hne), ← hgot]

/-- C1 witness: two writes followed by two reads on a 128-byte buffer
deliver frames with sequence numbers [1, 2] and log committed numbers
[1, 2]; a junk header with sequence 9 against expected counter 1 raises
`SequenceError(1, 9)`. -/
theorem reader_delivers_consecutive_sequence_numbers_witness :
    ((runCmds (initRun 128)
        [.write (List.replicate 16 4), .write (List.replicate 16 4), .read, .read]).frames.map
      FrameObj.seq = [1, 2]) ∧
    (let sMis : SysState :=
      { initState 128 with payload := storeHeader (fun _ => 0) 0 5 9 }
     readFrameBody sMis = .err (.sequenceError 1 9) sMis) := by
  have h := reader_delivers_consecutive_sequence_numbers 128
    [.write (List.replicate 16 4), .write (List.replicate 16 4), .read, .read] (by decide)
  constructor
  · have h1 := h.1.1
    rw [show (runCmds (initRun 128)
        [.write (List.replicate 16 4), .write (List.replicate 16 4), .read, .read]).frames.length
        = 2 by decide] at h1
    exact h1
  · intro sMis
    have h9 : (9 : Nat) = loadHeaderSeq sMis.payload sMis.readPos := by
      show (9 : Nat) = loadHeaderSeq (storeHeader (fun _ => 0) 0 5 9) 0
      rw [loadHeaderSeq_storeHeader]
      decide
    have h5 : loadHeaderSize sMis.payload sMis.readPos ≠ 0 := by
      show loadHeaderSize (storeHeader (fun _ => 0) 0 5 9) 0 ≠ 0
      rw [loadHeaderSize_storeHeader]
      decide
    exact h.2 sMis 9 (by decide) h5 h9 (by decide)

/-! ### The free-byte accounting invariant (C2)

The pending contents of the ring are described by two linear runs of frames:
`high` from `payload_read_pos` towards the end of the region and `low` from
offset 0 up to `payload_write_pos` (present only when the writer has wrapped
past the reader), plus at most one pending wrap marker between them.  The
invariant `InvC2` ties `payload_free_bytes` to the byte count of this queue,
the release tokens of outstanding frames, and the unreclaimed wrap tail. -/

/-- A committed-but-unconsumed real frame: its offset in the payload region
and its data size. -/
structure Seg where
  pos : Nat
  size : Nat
  deriving DecidableEq, Repr

/-- Bytes a frame occupies: header plus data. -/
def segBytes (f : Seg) : Nat := FRAME_HEADER + f.size

def segsBytes (l : List Seg) : Nat := (l.map segBytes).sum

/-- The frames of `l` laid out contiguously from offset `r`. -/
def linAt : Nat → List Seg → Prop
  | _, [] => True
  | r, f :: rest => f.pos = r ∧ linAt (r + segBytes f) rest

/-- A well-formed pending frame in a payload region of size `N` with
contents `mem`: nonzero 16-aligned size, in bounds, header in place. -/
def segOk (N : Nat) (mem : Mem) (f : Seg) : Prop :=
  0 < f.size ∧ f.size % 16 = 0 ∧ f.pos % 16 = 0 ∧ FRAME_HEADER + f.size < U64 ∧
  f.pos + segBytes f ≤ N ∧ loadHeaderSize mem f.pos = f.size

/-- Queue shape: `high` runs from `R` (ending at `E1 = R + segsBytes high`),
`low` from 0 (ending at `W`); when `low` is nonempty the writer has wrapped,
either over a pending marker at `E1` (tail ≥ 16) or over a bare tail of 0
bytes (`E1 = N`). -/
def ringShape (N : Nat) (mem : Mem) (R W : Nat) (high low : List Seg)
    (marker : Option Nat) : Prop :=
  linAt R high ∧ linAt 0 low ∧
  (∀ f ∈ high, segOk N mem f) ∧ (∀ f ∈ low, segOk N mem f) ∧
  R + segsBytes high ≤ N ∧
  (match marker, low with
   | none, [] => W = R + segsBytes high ∨ (R + segsBytes high = 0 ∧ W = N)
   | none, _ :: _ => R + segsBytes high = N ∧ W = segsBytes low ∧ segsBytes low ≤ R
   | some _, [] => False
   | some p, _ :: _ =>
       p = R + segsBytes high ∧ R + segsBytes high + FRAME_HEADER ≤ N ∧
       loadHeaderSize mem p = 0 ∧ W = segsBytes low ∧ segsBytes low ≤ R)

/-- The unreclaimed wrap-tail bytes: the stretch from the end of `high` to
the end of the region, debited by the writer at wrap time and credited back
by the reader on marker consumption. -/
def ringWaste (N R : Nat) (high low : List Seg) : Nat :=
  match low with
  | [] => 0
  | _ :: _ => N - (R + segsBytes high)

/-- C2's invariant: basic field bounds plus — the claim's equation —
`payload_free_bytes` + (committed-but-unread frame bytes, headers included)
+ (release tokens of read-but-unreleased frames) + (unreclaimed wrap tail)
= `payload_size`. -/
def InvC2 (s : SysState) : Prop :=
  0 < s.payloadSize ∧ s.payloadSize < U64 ∧ s.payloadSize % 16 = 0 ∧
  s.writerPid ≠ 0 ∧
  s.readPos < s.payloadSize ∧ s.readPos % 16 = 0 ∧
  s.writePos ≤ s.payloadSize ∧ s.writePos % 16 = 0 ∧
  ∃ high low marker,
    ringShape s.payloadSize s.payload s.readPos s.writePos high low marker ∧
    s.semW ≤ high.length + low.length ∧
    s.free + (segsBytes high + segsBytes low + s.held.sum +
      ringWaste s.payloadSize s.readPos high low) = s.payloadSize

/-- What a `write_frame` commit debits from `payload_free_bytes`: the frame
total plus, when the wrap branch is taken, the wasted tail. -/
def writeDebit (s : SysState) (total : Nat) : Nat :=
  if sub64 s.payloadSize s.writePos < total ∧ 0 < s.readPos then
    total + sub64 s.payloadSize s.writePos
  else total

/-- One atomic protocol step under the safe-write discipline: a writer
commit is taken only when the space guard holds and its total debit does not
exceed the current `payload_free_bytes` (a condition the position-based
guard of writer.cpp:132-149 does not enforce by itself — see the
counterexample), with 16-aligned payload size; reads and frame releases are
unrestricted. -/
inductive ZStep : SysState → SysState → Prop where
  | write (s : SysState) (data : List Nat)
      (hne : data.length ≠ 0)
      (hal : data.length % 16 = 0)
      (hsz : FRAME_HEADER + data.length < U64)
      (hguard : FRAME_HEADER + data.length ≤ continuousFree s)
      (hsafe : writeDebit s (FRAME_HEADER + data.length) ≤ s.free) :
      ZStep s (writeCommit s data)
  | read (s : SysState) : ZStep s (stepReadSys s)
  | release (s : SysState) (i : Nat) : ZStep s (releaseHeld s i)

/-- Reachability through safe steps. -/
inductive ReachSafe : SysState → SysState → Prop where
  | refl (s : SysState) : ReachSafe s s
  | step (s t u : SysState) : ReachSafe s t → ZStep t u → ReachSafe s u

theorem segsBytes_nil : segsBytes [] = 0 := rfl

theorem segsBytes_cons (f : Seg) (l : List Seg) :
    segsBytes (f :: l) = segBytes f + segsBytes l := by
  unfold segsBytes
  simp

theorem segsBytes_append (l1 l2 : List Seg) :
    segsBytes (l1 ++ l2) = segsBytes l1 + segsBytes l2 := by
  unfold segsBytes
  simp

theorem segBytes_lb (f : Seg) : 16 ≤ segBytes f := by
  unfold segBytes FRAME_HEADER
  omega

theorem segBytes_mk (p sz : Nat) : segBytes ⟨p, sz⟩ = FRAME_HEADER + sz := rfl

theorem linAt_snoc (l : List Seg) (r : Nat) (f : Seg) (h : linAt r l)
    (hp : f.pos = r + segsBytes l) : linAt r (l ++ [f]) := by
  induction l generalizing r with
  | nil =>
    exact ⟨by simpa [segsBytes_nil] using hp, trivial⟩
  | cons g gs ih =>
    obtain ⟨hg, hrest⟩ := h
    refine ⟨hg, ih (r + segBytes g) hrest ?_⟩
    rw [hp, segsBytes_cons]
    omega

/-- Every frame of a linear run lies inside the run's span. -/
theorem linAt_region (l : List Seg) (r : Nat) (h : linAt r l) :
    ∀ f ∈ l, r ≤ f.pos ∧ f.pos + segBytes f ≤ r + segsBytes l := by
  induction l generalizing r with
  | nil => intro f hf; cases hf
  | cons g gs ih =>
    obtain ⟨hg, hrest⟩ := h
    intro f hf
    rcases List.mem_cons.mp hf with hfg | hfgs
    · subst hfg
      rw [segsBytes_cons, hg]
      exact ⟨le_refl _, by omega⟩
    · obtain ⟨ha, hb⟩ := ih (r + segBytes g) hrest f hfgs
      rw [segsBytes_cons]
      exact ⟨by omega, by omega⟩

/-- A run of well-formed frames starting at `N` (or beyond) is empty. -/
theorem linAt_high_end (l : List Seg) (N : Nat) (mem : Mem) (r : Nat)
    (h : linAt r l) (hok : ∀ f ∈ l, segOk N mem f) (hr : N ≤ r) : l = [] := by
  cases l with
  | nil => rfl
  | cons g gs =>
    obtain ⟨hg, _⟩ := h
    obtain ⟨_, _, _, _, hfit, _⟩ := hok g (List.mem_cons_self g gs)
    have := segBytes_lb g
    omega

theorem sum_remove_at (l : List Nat) (i : Nat) (h : i < l.length) :
    (l.take i ++ l.drop (i + 1)).sum + l.get ⟨i, h⟩ = l.sum := by
  induction l generalizing i with
  | nil => cases h
  | cons x xs ih =>
    cases i with
    | zero => simp [Nat.add_comm]
    | succ j =>
      have hj : j < xs.length := by simpa using h
      have := ih j hj
      simp only [List.take_succ_cons, List.drop_succ_cons, List.cons_append, List.sum_cons,
        List.get_cons_succ]
      omega

/-- Release preservation: destroying an outstanding frame credits its token
back and keeps the C2 equation. -/
theorem invC2_release (s : SysState) (i : Nat) (hInv : InvC2 s) :
    InvC2 (releaseHeld s i) := by
  obtain ⟨h1, h2, h3, h4, h5, h6, h7, h8, high, low, marker, hshape, hsem, heq⟩ := hInv
  unfold releaseHeld
  split
  · next hi =>
    refine ⟨h1, h2, h3, h4, h5, h6, h7, h8, high, low, marker, hshape, hsem, ?_⟩
    have hrem := sum_remove_at s.held i hi
    have hh : s.held.get ⟨i, hi⟩ ≤ s.held.sum := by omega
    show add64 s.free (s.held.get ⟨i, hi⟩) +
      (segsBytes high + segsBytes low + (s.held.take i ++ s.held.drop (i + 1)).sum +
        ringWaste s.payloadSize s.readPos high low) = s.payloadSize
    rw [add64_eq s.free _ (by omega)]
    omega
  · exact ⟨h1, h2, h3, h4, h5, h6, h7, h8, high, low, marker, hshape, hsem, heq⟩

/-- The invariant holds in the freshly created buffer. -/
theorem invC2_init (n : Nat) (h0 : 0 < n) (h1 : n < U64) (h2 : n % 16 = 0) :
    InvC2 (initState n) := by
  refine ⟨h0, h1, h2, ?_, h0, rfl, Nat.zero_le n, rfl, [], [], none, ?_, ?_, ?_⟩
  · show (42 : Nat) ≠ 0
    decide
  · refine ⟨trivial, trivial, ?_, ?_, ?_, Or.inl rfl⟩
    · intro f hf
      cases hf
    · intro f hf
      cases hf
    · show 0 + segsBytes [] ≤ n
      simp [segsBytes_nil]
  · exact Nat.le_refl 0
  · show n + (segsBytes [] + segsBytes [] + List.sum [] + ringWaste n 0 [] []) = n
    simp [segsBytes_nil, ringWaste]

/-- `writeCommit` when no wrap is needed. -/
theorem writeCommit_eq_nowrap (s : SysState) (data : List Nat)
    (h : ¬ (sub64 s.payloadSize s.writePos < FRAME_HEADER + data.length ∧ 0 < s.readPos)) :
    writeCommit s data =
      { s with
        payload := storeBytes (storeHeader s.payload s.writePos data.length s.wseq)
          (s.writePos + FRAME_HEADER) data,
        writePos := add64 s.writePos (FRAME_HEADER + data.length),
        wseq := add64 s.wseq 1,
        framesWritten := add64 s.framesWritten 1,
        bytesWritten := add64 s.bytesWritten data.length,
        free := sub64 s.free (FRAME_HEADER + data.length),
        writtenCount := add64 s.writtenCount 1,
        semW := s.semW + 1 } := by
  unfold writeCommit
  dsimp only
  rw [if_neg h]

/-- `writeCommit` when wrapping with room for a marker. -/
theorem writeCommit_eq_marker (s : SysState) (data : List Nat)
    (hc : sub64 s.payloadSize s.writePos < FRAME_HEADER + data.length ∧ 0 < s.readPos)
    (hm : FRAME_HEADER ≤ sub64 s.payloadSize s.writePos) :
    writeCommit s data =
      { s with
        payload := storeBytes (storeHeader (storeHeader s.payload s.writePos 0 0) 0
          data.length s.wseq) (0 + FRAME_HEADER) data,
        writePos := add64 0 (FRAME_HEADER + data.length),
        wseq := add64 s.wseq 1,
        framesWritten := add64 s.framesWritten 1,
        bytesWritten := add64 s.bytesWritten data.length,
        free := sub64 (sub64 s.free (sub64 s.payloadSize s.writePos))
          (FRAME_HEADER + data.length),
        writtenCount := add64 (add64 s.writtenCount 1) 1,
        semW := s.semW + 1 } := by
  unfold writeCommit
  dsimp only
  rw [if_pos hc, if_pos hm]

/-- `writeCommit` when wrapping over a tail too small for a marker. -/
theorem writeCommit_eq_bare (s : SysState) (data : List Nat)
    (hc : sub64 s.payloadSize s.writePos < FRAME_HEADER + data.length ∧ 0 < s.readPos)
    (hm : ¬ FRAME_HEADER ≤ sub64 s.payloadSize s.writePos) :
    writeCommit s data =
      { s with
        payload := storeBytes (storeHeader s.payload 0 data.length s.wseq)
          (0 + FRAME_HEADER) data,
        writePos := add64 0 (FRAME_HEADER + data.length),
        wseq := add64 s.wseq 1,
        framesWritten := add64 s.framesWritten 1,
        bytesWritten := add64 s.bytesWritten data.length,
        free := sub64 (sub64 s.free (sub64 s.payloadSize s.writePos))
          (FRAME_HEADER + data.length),
        writtenCount := add64 s.writtenCount 1,
        semW := s.semW + 1 } := by
  unfold writeCommit
  dsimp only
  rw [if_pos hc, if_neg hm]

set_option maxHeartbeats 1000000 in
/-- Writer preservation: a safe commit keeps the C2 invariant. -/
theorem invC2_write (s : SysState) (data : List Nat)
    (hne : data.length ≠ 0) (hal : data.length % 16 = 0)
    (hsz : FRAME_HEADER + data.length < U64)
    (hguard : FRAME_HEADER + data.length ≤ continuousFree s)
    (hsafe : writeDebit s (FRAME_HEADER + data.length) ≤ s.free)
    (hInv : InvC2 s) : InvC2 (writeCommit s data) := by
  obtain ⟨h1, h2, h3, h4, h5, h6, h7, h8, high, low, marker, hshape, hsem, heq⟩ := hInv
  obtain ⟨hlinH, hlinL, hokH, hokL, hE1N, hmatch⟩ := hshape
  have h16 : FRAME_HEADER = 16 := rfl
  have htail : sub64 s.payloadSize s.writePos = s.payloadSize - s.writePos :=
    sub64_eq _ _ h7 h2
  have hlen16 : 16 ≤ FRAME_HEADER + data.length := by omega
  by_cases hwrap :
      sub64 s.payloadSize s.writePos < FRAME_HEADER + data.length ∧ 0 < s.readPos
  case neg =>
    have hdebit : writeDebit s (FRAME_HEADER + data.length) = FRAME_HEADER + data.length := by
      unfold writeDebit
      rw [if_neg hwrap]
    rw [hdebit] at hsafe
    have htot : s.writePos + (FRAME_HEADER + data.length) ≤ s.payloadSize := by
      rcases not_and_or.mp hwrap with h | h
      · rw [htail] at h
        omega
      · have hR0 : s.readPos = 0 := by omega
        unfold continuousFree at hguard
        rw [if_pos (by omega)] at hguard
        dsimp only at hguard
        rw [if_pos hR0, htail] at hguard
        omega
    have hW' : add64 s.writePos (FRAME_HEADER + data.length) =
        s.writePos + (FRAME_HEADER + data.length) := add64_eq _ _ (by omega)
    rw [writeCommit_eq_nowrap s data hwrap]
    cases marker with
    | some p =>
      cases low with
      | nil => exact hmatch.elim
      | cons g gs =>
        -- wrapped over a marker: the writer continues inside [0, R)
        obtain ⟨hpE, hpFit, hpHdr, hWE2, hE2R⟩ := hmatch
        have hwaste : ringWaste s.payloadSize s.readPos high (g :: gs) =
            s.payloadSize - (s.readPos + segsBytes high) := rfl
        rw [hwaste] at heq
        have hfree2 : s.free + segsBytes (g :: gs) + s.held.sum = s.readPos := by omega
        have hWR : s.writePos + (FRAME_HEADER + data.length) ≤ s.readPos := by omega
        refine ⟨h1, h2, h3, h4, h5, h6, ?_, ?_,
          high, (g :: gs) ++ [⟨s.writePos, data.length⟩], some p, ⟨?_, ?_, ?_, ?_, ?_, ?_⟩,
          ?_, ?_⟩
        · show add64 s.writePos (FRAME_HEADER + data.length) ≤ s.payloadSize
          rw [hW']
          omega
        · show add64 s.writePos (FRAME_HEADER + data.length) % 16 = 0
          rw [hW']
          omega
        · exact hlinH
        · refine linAt_snoc _ _ _ hlinL ?_
          show s.writePos = 0 + segsBytes (g :: gs)
          omega
        · intro f hf
          obtain ⟨ha1, ha2, ha3, ha4, ha5, ha6⟩ := hokH f hf
          obtain ⟨hb1, hb2⟩ := linAt_region high s.readPos hlinH f hf
          have hsegb := segBytes_lb f
          refine ⟨ha1, ha2, ha3, ha4, ha5, ?_⟩
          rw [loadHeaderSize_storeBytes_disjoint _ _ _ _ (Or.inl (by omega)),
            loadHeaderSize_storeHeader_disjoint _ _ _ _ _ (Or.inl (by omega))]
          exact ha6
        · intro f hf
          rcases List.mem_append.mp hf with hfo | hfn
          · obtain ⟨ha1, ha2, ha3, ha4, ha5, ha6⟩ := hokL f hfo
            obtain ⟨hb1, hb2⟩ := linAt_region _ 0 hlinL f hfo
            have hsegb := segBytes_lb f
            refine ⟨ha1, ha2, ha3, ha4, ha5, ?_⟩
            rw [loadHeaderSize_storeBytes_disjoint _ _ _ _ (Or.inr (by omega)),
              loadHeaderSize_storeHeader_disjoint _ _ _ _ _ (Or.inr (by omega))]
            exact ha6
          · rw [List.mem_singleton.mp hfn]
            refine ⟨by show 0 < data.length; omega, hal, h8, hsz, ?_, ?_⟩
            · show s.writePos + segBytes ⟨s.writePos, data.length⟩ ≤ s.payloadSize
              unfold segBytes
              dsimp only
              omega
            · show loadHeaderSize _ s.writePos = data.length
              rw [loadHeaderSize_storeBytes_disjoint _ _ _ _ (Or.inr (by omega)),
                loadHeaderSize_storeHeader]
              exact Nat.mod_eq_of_lt (by omega)
        · exact hE1N
        · show p = s.readPos + segsBytes high ∧
            s.readPos + segsBytes high + FRAME_HEADER ≤ s.payloadSize ∧
            loadHeaderSize _ p = 0 ∧
            add64 s.writePos (FRAME_HEADER + data.length) =
              segsBytes ((g :: gs) ++ [⟨s.writePos, data.length⟩]) ∧
            segsBytes ((g :: gs) ++ [⟨s.writePos, data.length⟩]) ≤ s.readPos
          have hps : segsBytes ((g :: gs) ++ [⟨s.writePos, data.length⟩]) =
              segsBytes (g :: gs) + (FRAME_HEADER + data.length) := by
            simp only [segsBytes_append, segsBytes_cons, segsBytes_nil, segBytes_mk]
            omega
          refine ⟨hpE, hpFit, ?_, ?_, ?_⟩
          · rw [loadHeaderSize_storeBytes_disjoint _ _ _ _ (Or.inl (by omega)),
              loadHeaderSize_storeHeader_disjoint _ _ _ _ _ (Or.inl (by omega))]
            exact hpHdr
          · rw [hW', hps]
            omega
          · rw [hps]
            omega
        · show s.semW + 1 ≤ high.length + ((g :: gs) ++ [(⟨s.writePos, data.length⟩ : Seg)]).length
          simp only [List.length_append, List.length_cons, List.length_nil] at hsem ⊢
          omega
        · show sub64 s.free (FRAME_HEADER + data.length) +
            (segsBytes high + segsBytes ((g :: gs) ++ [⟨s.writePos, data.length⟩]) +
              s.held.sum +
              ringWaste s.payloadSize s.readPos high
                ((g :: gs) ++ [⟨s.writePos, data.length⟩])) = s.payloadSize
          have hps : segsBytes ((g :: gs) ++ [⟨s.writePos, data.length⟩]) =
              segsBytes (g :: gs) + (FRAME_HEADER + data.length) := by
            simp only [segsBytes_append, segsBytes_cons, segsBytes_nil, segBytes_mk]
            omega
          have hwaste2 : ringWaste s.payloadSize s.readPos high
              ((g :: gs) ++ [⟨s.writePos, data.length⟩]) =
              s.payloadSize - (s.readPos + segsBytes high) := rfl
          rw [sub64_eq _ _ hsafe (by omega), hps, hwaste2]
          omega
    | none =>
      cases low with
      | cons g gs =>
        -- wrapped over a bare (0-byte) tail
        obtain ⟨hE1, hWE2, hE2R⟩ := hmatch
        have hwaste : ringWaste s.payloadSize s.readPos high (g :: gs) =
            s.payloadSize - (s.readPos + segsBytes high) := rfl
        rw [hwaste] at heq
        have hfree2 : s.free + segsBytes (g :: gs) + s.held.sum = s.readPos := by omega
        have hWR : s.writePos + (FRAME_HEADER + data.length) ≤ s.readPos := by omega
        refine ⟨h1, h2, h3, h4, h5, h6, ?_, ?_,
          high, (g :: gs) ++ [⟨s.writePos, data.length⟩], none, ⟨?_, ?_, ?_, ?_, ?_, ?_⟩,
          ?_, ?_⟩
        · show add64 s.writePos (FRAME_HEADER + data.length) ≤ s.payloadSize
          rw [hW']
          omega
        · show add64 s.writePos (FRAME_HEADER + data.length) % 16 = 0
          rw [hW']
          omega
        · exact hlinH
        · refine linAt_snoc _ _ _ hlinL ?_
          show s.writePos = 0 + segsBytes (g :: gs)
          omega
        · intro f hf
          obtain ⟨ha1, ha2, ha3, ha4, ha5, ha6⟩ := hokH f hf
          obtain ⟨hb1, hb2⟩ := linAt_region high s.readPos hlinH f hf
          have hsegb := segBytes_lb f
          refine ⟨ha1, ha2, ha3, ha4, ha5, ?_⟩
          rw [loadHeaderSize_storeBytes_disjoint _ _ _ _ (Or.inl (by omega)),
            loadHeaderSize_storeHeader_disjoint _ _ _ _ _ (Or.inl (by omega))]
          exact ha6
        · intro f hf
          rcases List.mem_append.mp hf with hfo | hfn
          · obtain ⟨ha1, ha2, ha3, ha4, ha5, ha6⟩ := hokL f hfo
            obtain ⟨hb1, hb2⟩ := linAt_region _ 0 hlinL f hfo
            have hsegb := segBytes_lb f
            refine ⟨ha1, ha2, ha3, ha4, ha5, ?_⟩
            rw [loadHeaderSize_storeBytes_disjoint _ _ _ _ (Or.inr (by omega)),
              loadHeaderSize_storeHeader_disjoint _ _ _ _ _ (Or.inr (by omega))]
            exact ha6
          · rw [List.mem_singleton.mp hfn]
            refine ⟨by show 0 < data.length; omega, hal, h8, hsz, ?_, ?_⟩
            · show s.writePos + segBytes ⟨s.writePos, data.length⟩ ≤ s.payloadSize
              unfold segBytes
              dsimp only
              omega
            · show loadHeaderSize _ s.writePos = data.length
              rw [loadHeaderSize_storeBytes_disjoint _ _ _ _ (Or.inr (by omega)),
                loadHeaderSize_storeHeader]
              exact Nat.mod_eq_of_lt (by omega)
        · exact hE1N
        · show s.readPos + segsBytes high = s.payloadSize ∧
            add64 s.writePos (FRAME_HEADER + data.length) =
              segsBytes ((g :: gs) ++ [⟨s.writePos, data.length⟩]) ∧
            segsBytes ((g :: gs) ++ [⟨s.writePos, data.length⟩]) ≤ s.readPos
          have hps : segsBytes ((g :: gs) ++ [⟨s.writePos, data.length⟩]) =
              segsBytes (g :: gs) + (FRAME_HEADER + data.length) := by
            simp only [segsBytes_append, segsBytes_cons, segsBytes_nil, segBytes_mk]
            omega
          refine ⟨hE1, ?_, ?_⟩
          · rw [hW', hps]
            omega
          · rw [hps]
            omega
        · show s.semW + 1 ≤ high.length + ((g :: gs) ++ [(⟨s.writePos, data.length⟩ : Seg)]).length
          simp only [List.length_append, List.length_cons, List.length_nil] at hsem ⊢
          omega
        · show sub64 s.free (FRAME_HEADER + data.length) +
            (segsBytes high + segsBytes ((g :: gs) ++ [⟨s.writePos, data.length⟩]) +
              s.held.sum +
              ringWaste s.payloadSize s.readPos high
                ((g :: gs) ++ [⟨s.writePos, data.length⟩])) = s.payloadSize
          have hps : segsBytes ((g :: gs) ++ [⟨s.writePos, data.length⟩]) =
              segsBytes (g :: gs) + (FRAME_HEADER + data.length) := by
            simp only [segsBytes_append, segsBytes_cons, segsBytes_nil, segBytes_mk]
            omega
          have hwaste2 : ringWaste s.payloadSize s.readPos high
              ((g :: gs) ++ [⟨s.writePos, data.length⟩]) =
              s.payloadSize - (s.readPos + segsBytes high) := rfl
          rw [sub64_eq _ _ hsafe (by omega), hps, hwaste2]
          omega
      | nil =>
        -- unwrapped: append at the end of `high`
        have hwaste : ringWaste s.payloadSize s.readPos high ([] : List Seg) = 0 := rfl
        rw [hwaste] at heq
        simp only [segsBytes_nil] at heq
        have hWE : s.writePos = s.readPos + segsBytes high := by
          rcases hmatch with h | h
          · exact h
          · omega
        refine ⟨h1, h2, h3, h4, h5, h6, ?_, ?_,
          high ++ [⟨s.writePos, data.length⟩], [], none, ⟨?_, ?_, ?_, ?_, ?_, ?_⟩,
          ?_, ?_⟩
        · show add64 s.writePos (FRAME_HEADER + data.length) ≤ s.payloadSize
          rw [hW']
          omega
        · show add64 s.writePos (FRAME_HEADER + data.length) % 16 = 0
          rw [hW']
          omega
        · refine linAt_snoc _ _ _ hlinH ?_
          show s.writePos = s.readPos + segsBytes high
          exact hWE
        · exact trivial
        · intro f hf
          rcases List.mem_append.mp hf with hfo | hfn
          · obtain ⟨ha1, ha2, ha3, ha4, ha5, ha6⟩ := hokH f hfo
            obtain ⟨hb1, hb2⟩ := linAt_region high s.readPos hlinH f hfo
            have hsegb := segBytes_lb f
            refine ⟨ha1, ha2, ha3, ha4, ha5, ?_⟩
            rw [loadHeaderSize_storeBytes_disjoint _ _ _ _ (Or.inr (by omega)),
              loadHeaderSize_storeHeader_disjoint _ _ _ _ _ (Or.inr (by omega))]
            exact ha6
          · rw [List.mem_singleton.mp hfn]
            refine ⟨by show 0 < data.length; omega, hal, h8, hsz, ?_, ?_⟩
            · show s.writePos + segBytes ⟨s.writePos, data.length⟩ ≤ s.payloadSize
              unfold segBytes
              dsimp only
              omega
            · show loadHeaderSize _ s.writePos = data.length
              rw [loadHeaderSize_storeBytes_disjoint _ _ _ _ (Or.inr (by omega)),
                loadHeaderSize_storeHeader]
              exact Nat.mod_eq_of_lt (by omega)
        · intro f hf
          cases hf
        · show s.readPos + segsBytes (high ++ [⟨s.writePos, data.length⟩]) ≤ s.payloadSize
          simp only [segsBytes_append, segsBytes_cons, segsBytes_nil, segBytes_mk]
          omega
        · refine Or.inl ?_
          show add64 s.writePos (FRAME_HEADER + data.length) =
            s.readPos + segsBytes (high ++ [⟨s.writePos, data.length⟩])
          rw [hW']
          simp only [segsBytes_append, segsBytes_cons, segsBytes_nil, segBytes_mk]
          omega
        · show s.semW + 1 ≤ (high ++ [(⟨s.writePos, data.length⟩ : Seg)]).length + ([] : List Seg).length
          simp only [List.length_append, List.length_cons, List.length_nil] at hsem ⊢
          omega
        · show sub64 s.free (FRAME_HEADER + data.length) +
            (segsBytes (high ++ [⟨s.writePos, data.length⟩]) + segsBytes ([] : List Seg) +
              s.held.sum +
              ringWaste s.payloadSize s.readPos (high ++ [⟨s.writePos, data.length⟩]) []) =
            s.payloadSize
          have hps : segsBytes (high ++ [⟨s.writePos, data.length⟩]) =
              segsBytes high + (FRAME_HEADER + data.length) := by
            simp only [segsBytes_append, segsBytes_cons, segsBytes_nil, segBytes_mk]
            omega
          have hwaste2 : ringWaste s.payloadSize s.readPos
              (high ++ [⟨s.writePos, data.length⟩]) [] = 0 := rfl
          rw [sub64_eq _ _ hsafe (by omega), hps, hwaste2, segsBytes_nil]
          omega
  case pos =>
    have hdebit : writeDebit s (FRAME_HEADER + data.length) =
        (FRAME_HEADER + data.length) + sub64 s.payloadSize s.writePos := by
      unfold writeDebit
      rw [if_pos hwrap]
    rw [hdebit, htail] at hsafe
    obtain ⟨hlt, hR⟩ := hwrap
    have hltN : s.payloadSize - s.writePos < FRAME_HEADER + data.length := by
      rw [htail] at hlt
      exact hlt
    -- the queue cannot be wrapped already
    cases low with
    | cons g gs =>
      exfalso
      have hWE2 : s.writePos = segsBytes (g :: gs) := by
        cases marker with
        | none => exact hmatch.2.1
        | some p => exact hmatch.2.2.2.1
      have hwaste : ringWaste s.payloadSize s.readPos high (g :: gs) =
          s.payloadSize - (s.readPos + segsBytes high) := rfl
      rw [hwaste] at heq
      omega
    | nil =>
      cases marker with
      | some p => exact hmatch.elim
      | none =>
        have hwaste : ringWaste s.payloadSize s.readPos high ([] : List Seg) = 0 := rfl
        rw [hwaste] at heq
        simp only [segsBytes_nil] at heq
        have hWE : s.writePos = s.readPos + segsBytes high := by
          rcases hmatch with h | h
          · exact h
          · omega
        have hRtot : FRAME_HEADER + data.length ≤ s.readPos := by
          unfold continuousFree at hguard
          rw [if_pos (by omega)] at hguard
          dsimp only at hguard
          rw [if_neg (by omega), htail] at hguard
          rcases le_max_iff.mp hguard with h | h
          · omega
          · exact h
        have htail16 : (s.payloadSize - s.writePos) % 16 = 0 := by omega
        by_cases hm : FRAME_HEADER ≤ sub64 s.payloadSize s.writePos
        · -- room for a wrap marker
          rw [writeCommit_eq_marker s data ⟨hlt, hR⟩ hm]
          rw [htail] at hm
          have hWtot : add64 0 (FRAME_HEADER + data.length) = FRAME_HEADER + data.length :=
            (add64_eq 0 _ (by omega)).trans (Nat.zero_add _)
          refine ⟨h1, h2, h3, h4, h5, h6, ?_, ?_,
            high, [⟨0, data.length⟩], some s.writePos, ⟨?_, ?_, ?_, ?_, ?_, ?_⟩,
            ?_, ?_⟩
          · show add64 0 (FRAME_HEADER + data.length) ≤ s.payloadSize
            rw [hWtot]
            omega
          · show add64 0 (FRAME_HEADER + data.length) % 16 = 0
            rw [hWtot]
            omega
          · exact hlinH
          · exact ⟨rfl, trivial⟩
          · intro f hf
            obtain ⟨ha1, ha2, ha3, ha4, ha5, ha6⟩ := hokH f hf
            obtain ⟨hb1, hb2⟩ := linAt_region high s.readPos hlinH f hf
            have hsegb := segBytes_lb f
            refine ⟨ha1, ha2, ha3, ha4, ha5, ?_⟩
            rw [loadHeaderSize_storeBytes_disjoint _ _ _ _ (Or.inl (by omega)),
              loadHeaderSize_storeHeader_disjoint _ _ _ _ _ (Or.inl (by omega)),
              loadHeaderSize_storeHeader_disjoint _ _ _ _ _ (Or.inr (by omega))]
            exact ha6
          · intro f hf
            rw [List.mem_singleton.mp hf]
            refine ⟨by show 0 < data.length; omega, hal,
              by show (0 : Nat) % 16 = 0; rfl, hsz, ?_, ?_⟩
            · show 0 + segBytes ⟨0, data.length⟩ ≤ s.payloadSize
              unfold segBytes
              dsimp only
              omega
            · show loadHeaderSize _ 0 = data.length
              rw [loadHeaderSize_storeBytes_disjoint _ _ _ _ (Or.inr (by omega)),
                loadHeaderSize_storeHeader]
              exact Nat.mod_eq_of_lt (by omega)
          · exact hE1N
          · show s.writePos = s.readPos + segsBytes high ∧
              s.readPos + segsBytes high + FRAME_HEADER ≤ s.payloadSize ∧
              loadHeaderSize _ s.writePos = 0 ∧
              add64 0 (FRAME_HEADER + data.length) = segsBytes [⟨0, data.length⟩] ∧
              segsBytes [⟨0, data.length⟩] ≤ s.readPos
            have hps : segsBytes [(⟨0, data.length⟩ : Seg)] =
                FRAME_HEADER + data.length := by
              simp only [segsBytes_cons, segsBytes_nil, segBytes_mk]
              omega
            refine ⟨hWE, by omega, ?_, ?_, ?_⟩
            · rw [loadHeaderSize_storeBytes_disjoint _ _ _ _ (Or.inl (by omega)),
                loadHeaderSize_storeHeader_disjoint _ _ _ _ _ (Or.inl (by omega)),
                loadHeaderSize_storeHeader]
              simp
            · rw [hWtot, hps]
            · rw [hps]
              omega
          · show s.semW + 1 ≤ high.length + [(⟨0, data.length⟩ : Seg)].length
            simp only [List.length_append, List.length_cons, List.length_nil] at hsem ⊢
            omega
          · show sub64 (sub64 s.free (sub64 s.payloadSize s.writePos))
                (FRAME_HEADER + data.length) +
              (segsBytes high + segsBytes [⟨0, data.length⟩] + s.held.sum +
                ringWaste s.payloadSize s.readPos high [⟨0, data.length⟩]) = s.payloadSize
            have hps : segsBytes [(⟨0, data.length⟩ : Seg)] =
                FRAME_HEADER + data.length := by
              simp only [segsBytes_cons, segsBytes_nil, segBytes_mk]
              omega
            have hwaste2 : ringWaste s.payloadSize s.readPos high [⟨0, data.length⟩] =
                s.payloadSize - (s.readPos + segsBytes high) := rfl
            rw [htail, sub64_eq s.free _ (by omega) (by omega),
              sub64_eq _ _ (by omega) (by omega), hps, hwaste2]
            omega
        · -- bare wrap: the tail is 0 bytes
          rw [writeCommit_eq_bare s data ⟨hlt, hR⟩ hm]
          rw [htail] at hm
          have htail0 : s.payloadSize - s.writePos = 0 := by omega
          have hWtot : add64 0 (FRAME_HEADER + data.length) = FRAME_HEADER + data.length :=
            (add64_eq 0 _ (by omega)).trans (Nat.zero_add _)
          refine ⟨h1, h2, h3, h4, h5, h6, ?_, ?_,
            high, [⟨0, data.length⟩], none, ⟨?_, ?_, ?_, ?_, ?_, ?_⟩,
            ?_, ?_⟩
          · show add64 0 (FRAME_HEADER + data.length) ≤ s.payloadSize
            rw [hWtot]
            omega
          · show add64 0 (FRAME_HEADER + data.length) % 16 = 0
            rw [hWtot]
            omega
          · exact hlinH
          · exact ⟨rfl, trivial⟩
          · intro f hf
            obtain ⟨ha1, ha2, ha3, ha4, ha5, ha6⟩ := hokH f hf
            obtain ⟨hb1, hb2⟩ := linAt_region high s.readPos hlinH f hf
            have hsegb := segBytes_lb f
            refine ⟨ha1, ha2, ha3, ha4, ha5, ?_⟩
            rw [loadHeaderSize_storeBytes_disjoint _ _ _ _ (Or.inl (by omega)),
              loadHeaderSize_storeHeader_disjoint _ _ _ _ _ (Or.inl (by omega))]
            exact ha6
          · intro f hf
            rw [List.mem_singleton.mp hf]
            refine ⟨by show 0 < data.length; omega, hal,
              by show (0 : Nat) % 16 = 0; rfl, hsz, ?_, ?_⟩
            · show 0 + segBytes ⟨0, data.length⟩ ≤ s.payloadSize
              unfold segBytes
              dsimp only
              omega
            · show loadHeaderSize _ 0 = data.length
              rw [loadHeaderSize_storeBytes_disjoint _ _ _ _ (Or.inr (by omega)),
                loadHeaderSize_storeHeader]
              exact Nat.mod_eq_of_lt (by omega)
          · exact hE1N
          · show s.readPos + segsBytes high = s.payloadSize ∧
              add64 0 (FRAME_HEADER + data.length) = segsBytes [⟨0, data.length⟩] ∧
              segsBytes [⟨0, data.length⟩] ≤ s.readPos
            have hps : segsBytes [(⟨0, data.length⟩ : Seg)] =
                FRAME_HEADER + data.length := by
              simp only [segsBytes_cons, segsBytes_nil, segBytes_mk]
              omega
            refine ⟨by omega, by rw [hWtot, hps], by rw [hps]; omega⟩
          · show s.semW + 1 ≤ high.length + [(⟨0, data.length⟩ : Seg)].length
            simp only [List.length_append, List.length_cons, List.length_nil] at hsem ⊢
            omega
          · show sub64 (sub64 s.free (sub64 s.payloadSize s.writePos))
                (FRAME_HEADER + data.length) +
              (segsBytes high + segsBytes [⟨0, data.length⟩] + s.held.sum +
                ringWaste s.payloadSize s.readPos high [⟨0, data.length⟩]) = s.payloadSize
            have hps : segsBytes [(⟨0, data.length⟩ : Seg)] =
                FRAME_HEADER + data.length := by
              simp only [segsBytes_cons, segsBytes_nil, segBytes_mk]
              omega
            have hwaste2 : ringWaste s.payloadSize s.readPos high [⟨0, data.length⟩] =
                s.payloadSize - (s.readPos + segsBytes high) := rfl
            rw [htail, sub64_eq s.free _ (by omega) (by omega),
              sub64_eq _ _ (by omega) (by omega), hps, hwaste2]
            omega

/-- `readParse` on a well-formed front frame whose header matches the
expected sequence number: the frame is delivered and the read position
advances by the frame total. -/
theorem readParse_front_frame (t : SysState) (hsize rp : Nat)
    (hs : loadHeaderSize t.payload t.readPos = hsize) (h0 : hsize ≠ 0)
    (hU : FRAME_HEADER + hsize < U64) (hN : t.payloadSize < U64)
    (hfit : t.readPos + (FRAME_HEADER + hsize) ≤ t.payloadSize)
    (hseq : loadHeaderSeq t.payload t.readPos = t.expected)
    (hrp : rp = if t.payloadSize ≤ t.readPos + (FRAME_HEADER + hsize)
                 then t.readPos + (FRAME_HEADER + hsize) - t.payloadSize
                 else t.readPos + (FRAME_HEADER + hsize)) :
    readParse t = .frame
      ⟨some (loadBytes t.payload (t.readPos + FRAME_HEADER) hsize), hsize,
        loadHeaderSeq t.payload t.readPos, some (FRAME_HEADER + hsize)⟩
      { t with readPos := rp,
               readCount := add64 t.readCount 1,
               expected := add64 t.expected 1,
               framesRead := add64 t.framesRead 1,
               bytesRead := add64 t.bytesRead hsize } := by
  subst hrp
  unfold readParse finishRead
  dsimp only
  rw [hs]
  have htots : add64 FRAME_HEADER hsize = FRAME_HEADER + hsize := add64_eq _ _ hU
  have hadd : add64 t.readPos (FRAME_HEADER + hsize) = t.readPos + (FRAME_HEADER + hsize) :=
    add64_eq _ _ (by omega)
  rw [if_neg (by rw [hseq]; simp), if_neg h0, htots, hadd, if_neg (by omega)]

/-- `readParse` on a nonzero front header whose sequence number does not
match: `SequenceError` with the state untouched. -/
theorem readParse_front_mismatch (t : SysState)
    (hne : loadHeaderSeq t.payload t.readPos ≠ t.expected) :
    readParse t = .err (.sequenceError t.expected (loadHeaderSeq t.payload t.readPos)) t := by
  unfold readParse
  dsimp only
  rw [if_pos hne]

/-- `readFrameOnce` under a pending signal consumes it and runs the body. -/
theorem readFrameOnce_busy (s : SysState) (h : s.semW ≠ 0) :
    readFrameOnce s = readFrameBody { s with semW := s.semW - 1 } := by
  unfold readFrameOnce
  rw [if_neg h]

/-- With a live writer and a nonzero front header the body goes straight to
validation. -/
theorem readFrameBody_no_marker (t : SysState) (hpid : t.writerPid ≠ 0)
    (hnz : loadHeaderSize t.payload t.readPos ≠ 0) :
    readFrameBody t = readParse t := by
  unfold readFrameBody
  rw [if_neg (fun hc => hpid hc.1), if_neg hnz]

/-- With a live writer and a zero front header the body consumes the wrap
marker and re-parses at offset 0. -/
theorem readFrameBody_marker (t : SysState) (hpid : t.writerPid ≠ 0)
    (hz : loadHeaderSize t.payload t.readPos = 0) :
    readFrameBody t = readParse (consumeWrap t) := by
  unfold readFrameBody
  rw [if_neg (fun hc => hpid hc.1), if_pos hz]

/-- A delivered frame's release token joins the outstanding set. -/
theorem stepReadSys_frame (s t : SysState) (f : FrameObj) (sz : Nat)
    (h : readFrameOnce s = .frame f t) (hrel : f.releaseInfo = some sz) :
    stepReadSys s = { t with held := t.held ++ [sz] } := by
  obtain ⟨d, szf, sqf, ri⟩ := f
  have hrel2 : ri = some sz := hrel
  subst hrel2
  unfold stepReadSys
  rw [h]

/-- A read error leaves the carried state as the step's result. -/
theorem stepReadSys_err (s t : SysState) (e : ZErr)
    (h : readFrameOnce s = .err e t) : stepReadSys s = t := by
  unfold stepReadSys
  rw [h]

set_option maxHeartbeats 1600000 in
/-- Reader preservation: one `read_frame` call keeps the C2 invariant. -/
theorem invC2_read (s : SysState) (hInv : InvC2 s) : InvC2 (stepReadSys s) := by
  obtain ⟨h1, h2, h3, h4, h5, h6, h7, h8, high, low, marker, hshape, hsem, heq⟩ := hInv
  obtain ⟨hlinH, hlinL, hokH, hokL, hE1N, hmatch⟩ := hshape
  have h16 : FRAME_HEADER = 16 := rfl
  by_cases hsw : s.semW = 0
  · have hstep : stepReadSys s = s := by
      unfold stepReadSys readFrameOnce
      rw [if_pos hsw]
      by_cases hdead : s.writerPid ≠ 0 ∧ ¬ s.writerAlive
      · rw [if_pos hdead]
      · rw [if_neg hdead]
        rfl
    rw [hstep]
    exact ⟨h1, h2, h3, h4, h5, h6, h7, h8, high, low, marker,
      ⟨hlinH, hlinL, hokH, hokL, hE1N, hmatch⟩, hsem, heq⟩
  · have hfo := readFrameOnce_busy s hsw
    cases high with
    | cons f hs =>
      obtain ⟨hfpos, hlinH2⟩ := hlinH
      obtain ⟨hs0, hsal, hpal, hsU, hffit, hhdr⟩ := hokH f (List.mem_cons_self f hs)
      have hsb : segBytes f = FRAME_HEADER + f.size := rfl
      have hhdrR : loadHeaderSize s.payload s.readPos = f.size := hfpos ▸ hhdr
      have hbody := readFrameBody_no_marker { s with semW := s.semW - 1 } h4
        (show ¬ loadHeaderSize s.payload s.readPos = 0 by rw [hhdrR]; omega)
      by_cases hseq : loadHeaderSeq s.payload s.readPos = s.expected
      · by_cases hrpN : s.payloadSize ≤ s.readPos + (FRAME_HEADER + f.size)
        · -- the frame ends exactly at the region end: read position wraps to 0
          have hhs : hs = [] :=
            linAt_high_end hs s.payloadSize s.payload (s.readPos + segBytes f) hlinH2
              (fun g hg => hokH g (List.mem_cons_of_mem f hg)) (by omega)
          subst hhs
          have hp := readParse_front_frame { s with semW := s.semW - 1 } f.size 0
            hhdrR (by omega) hsU h2
            (show s.readPos + (FRAME_HEADER + f.size) ≤ s.payloadSize by omega)
            hseq
            (by
              show (0 : Nat) =
                if s.payloadSize ≤ s.readPos + (FRAME_HEADER + f.size)
                then s.readPos + (FRAME_HEADER + f.size) - s.payloadSize
                else s.readPos + (FRAME_HEADER + f.size)
              rw [if_pos hrpN]
              omega)
          rw [stepReadSys_frame s _ _ (FRAME_HEADER + f.size)
            (hfo.trans (hbody.trans hp)) rfl]
          rcases marker with _ | p
          · rcases low with _ | ⟨g, gs⟩
            · -- the ring is empty after the read
              simp only [segsBytes_cons, segsBytes_nil, ringWaste] at hmatch heq hE1N
              have hWN : s.writePos = s.payloadSize := by
                rcases hmatch with hW | ⟨hz, hW⟩
                · omega
                · exact hW
              refine ⟨h1, h2, h3, h4, ?_, ?_, h7, h8, [], [], none,
                ⟨trivial, trivial, ?_, ?_, ?_, ?_⟩, ?_, ?_⟩
              · exact h1
              · exact Nat.zero_mod 16
              · intro x hx
                cases hx
              · intro x hx
                cases hx
              · show (0 : Nat) + segsBytes [] ≤ s.payloadSize
                simp only [segsBytes_nil]
                omega
              · exact Or.inr ⟨rfl, hWN⟩
              · show s.semW - 1 ≤ List.length ([] : List Seg) + List.length ([] : List Seg)
                simp only [List.length_cons, List.length_nil] at hsem ⊢
                omega
              · show s.free + (segsBytes [] + segsBytes [] +
                  (s.held ++ [FRAME_HEADER + f.size]).sum +
                  ringWaste s.payloadSize 0 [] []) = s.payloadSize
                simp only [segsBytes_nil, ringWaste, List.sum_append, List.sum_cons,
                  List.sum_nil]
                omega
            · -- the writer had wrapped over a bare zero-byte tail
              obtain ⟨hE1, hW, hWR⟩ := hmatch
              simp only [segsBytes_cons, segsBytes_nil, ringWaste] at hE1 heq hE1N
              refine ⟨h1, h2, h3, h4, ?_, ?_, h7, h8, g :: gs, [], none,
                ⟨?_, trivial, hokL, ?_, ?_, ?_⟩, ?_, ?_⟩
              · exact h1
              · exact Nat.zero_mod 16
              · exact hlinL
              · intro x hx
                cases hx
              · show (0 : Nat) + segsBytes (g :: gs) ≤ s.payloadSize
                omega
              · refine Or.inl ?_
                show s.writePos = 0 + segsBytes (g :: gs)
                omega
              · show s.semW - 1 ≤ List.length (g :: gs) + List.length ([] : List Seg)
                simp only [List.length_cons, List.length_nil] at hsem ⊢
                omega
              · show s.free + (segsBytes (g :: gs) + segsBytes [] +
                  (s.held ++ [FRAME_HEADER + f.size]).sum +
                  ringWaste s.payloadSize 0 (g :: gs) []) = s.payloadSize
                simp only [segsBytes_nil, segsBytes_cons, ringWaste, List.sum_append,
                  List.sum_cons, List.sum_nil]
                omega
          · rcases low with _ | ⟨g, gs⟩
            · exact False.elim hmatch
            · obtain ⟨hpE, hfitm, hh0, hW, hWR⟩ := hmatch
              have : False := by
                simp only [segsBytes_cons, segsBytes_nil] at hfitm
                omega
              exact this.elim
        · -- interior finish: the read position advances past the frame
          have hp := readParse_front_frame { s with semW := s.semW - 1 } f.size
            (s.readPos + (FRAME_HEADER + f.size))
            hhdrR (by omega) hsU h2
            (show s.readPos + (FRAME_HEADER + f.size) ≤ s.payloadSize by omega)
            hseq
            (by
              show s.readPos + (FRAME_HEADER + f.size) =
                if s.payloadSize ≤ s.readPos + (FRAME_HEADER + f.size)
                then s.readPos + (FRAME_HEADER + f.size) - s.payloadSize
                else s.readPos + (FRAME_HEADER + f.size)
              rw [if_neg hrpN])
          rw [stepReadSys_frame s _ _ (FRAME_HEADER + f.size)
            (hfo.trans (hbody.trans hp)) rfl]
          refine ⟨h1, h2, h3, h4, ?_, ?_, h7, h8, hs, low, marker,
            ⟨?_, hlinL, ?_, hokL, ?_, ?_⟩, ?_, ?_⟩
          · show s.readPos + (FRAME_HEADER + f.size) < s.payloadSize
            omega
          · show (s.readPos + (FRAME_HEADER + f.size)) % 16 = 0
            omega
          · exact hlinH2
          · exact fun g hg => hokH g (List.mem_cons_of_mem f hg)
          · show s.readPos + (FRAME_HEADER + f.size) + segsBytes hs ≤ s.payloadSize
            simp only [segsBytes_cons] at hE1N
            omega
          · rcases marker with _ | p
            · rcases low with _ | ⟨g, gs⟩
              · simp only [segsBytes_cons] at hmatch
                rcases hmatch with hW | ⟨hz, _⟩
                · refine Or.inl ?_
                  show s.writePos = s.readPos + (FRAME_HEADER + f.size) + segsBytes hs
                  omega
                · exact ((by omega : False)).elim
              · obtain ⟨hE1, hW, hWR⟩ := hmatch
                simp only [segsBytes_cons] at hE1
                refine ⟨?_, hW, ?_⟩
                · show s.readPos + (FRAME_HEADER + f.size) + segsBytes hs = s.payloadSize
                  omega
                · show segsBytes (g :: gs) ≤ s.readPos + (FRAME_HEADER + f.size)
                  omega
            · rcases low with _ | ⟨g, gs⟩
              · exact False.elim hmatch
              · obtain ⟨hpE, hfitm, hh0, hW, hWR⟩ := hmatch
                simp only [segsBytes_cons] at hpE hfitm
                refine ⟨?_, ?_, hh0, hW, ?_⟩
                · show p = s.readPos + (FRAME_HEADER + f.size) + segsBytes hs
                  omega
                · show s.readPos + (FRAME_HEADER + f.size) + segsBytes hs +
                    FRAME_HEADER ≤ s.payloadSize
                  omega
                · show segsBytes (g :: gs) ≤ s.readPos + (FRAME_HEADER + f.size)
                  omega
          · show s.semW - 1 ≤ List.length hs + List.length low
            simp only [List.length_cons] at hsem
            omega
          · rcases low with _ | ⟨g, gs⟩
            · show s.free + (segsBytes hs + segsBytes [] +
                (s.held ++ [FRAME_HEADER + f.size]).sum +
                ringWaste s.payloadSize (s.readPos + (FRAME_HEADER + f.size)) hs []) =
                s.payloadSize
              simp only [segsBytes_nil, ringWaste, List.sum_append, List.sum_cons,
                List.sum_nil]
              simp only [segsBytes_cons, segsBytes_nil, ringWaste] at heq
              omega
            · show s.free + (segsBytes hs + segsBytes (g :: gs) +
                (s.held ++ [FRAME_HEADER + f.size]).sum +
                ringWaste s.payloadSize (s.readPos + (FRAME_HEADER + f.size)) hs
                  (g :: gs)) = s.payloadSize
              simp only [segsBytes_cons, ringWaste, List.sum_append, List.sum_cons,
                List.sum_nil]
              simp only [segsBytes_cons, ringWaste] at heq
              omega
      · -- sequence mismatch: SequenceError thrown, buffer state untouched
        have hp := readParse_front_mismatch { s with semW := s.semW - 1 } hseq
        rw [stepReadSys_err s _ _ (hfo.trans (hbody.trans hp))]
        refine ⟨h1, h2, h3, h4, h5, h6, h7, h8, f :: hs, low, marker,
          ⟨⟨hfpos, hlinH2⟩, hlinL, hokH, hokL, hE1N, hmatch⟩, ?_, heq⟩
        show s.semW - 1 ≤ List.length (f :: hs) + List.length low
        omega
    | nil =>
      rcases marker with _ | p
      · rcases low with _ | ⟨g, gs⟩
        · have : False := by
            simp only [List.length_nil] at hsem
            omega
          exact this.elim
        · obtain ⟨hE1, hW, hWR⟩ := hmatch
          have : False := by
            simp only [segsBytes_nil] at hE1
            omega
          exact this.elim
      · rcases low with _ | ⟨g, gs⟩
        · exact False.elim hmatch
        · -- pending wrap marker at the read position, wrapped frames below
          obtain ⟨hpE, hfitm, hh0, hW, hWR⟩ := hmatch
          have hpR : p = s.readPos := by
            simp only [segsBytes_nil] at hpE
            omega
          obtain ⟨hg0, hlinL2⟩ := hlinL
          obtain ⟨hg1, hg2, hg3, hg4, hg5, hg6⟩ := hokL g (List.mem_cons_self g gs)
          have hgsb : segBytes g = FRAME_HEADER + g.size := rfl
          have hhdr0 : loadHeaderSize s.payload 0 = g.size := hg0 ▸ hg6
          have hgN : FRAME_HEADER + g.size + segsBytes gs ≤ s.readPos := by
            simp only [segsBytes_cons] at hWR
            omega
          have hbody := readFrameBody_marker { s with semW := s.semW - 1 } h4
            (show loadHeaderSize s.payload s.readPos = 0 from hpR ▸ hh0)
          by_cases hseq2 : loadHeaderSeq s.payload 0 = s.expected
          · have hp := readParse_front_frame
              (consumeWrap { s with semW := s.semW - 1 }) g.size
              (FRAME_HEADER + g.size)
              hhdr0 (by omega) hg4 h2
              (show (0 : Nat) + (FRAME_HEADER + g.size) ≤ s.payloadSize by omega)
              hseq2
              (by
                show FRAME_HEADER + g.size =
                  if s.payloadSize ≤ 0 + (FRAME_HEADER + g.size)
                  then 0 + (FRAME_HEADER + g.size) - s.payloadSize
                  else 0 + (FRAME_HEADER + g.size)
                rw [if_neg (by omega : ¬ s.payloadSize ≤ 0 + (FRAME_HEADER + g.size))]
                omega)
            rw [stepReadSys_frame s _ _ (FRAME_HEADER + g.size)
              (hfo.trans (hbody.trans hp)) rfl]
            refine ⟨h1, h2, h3, h4, ?_, ?_, h7, h8, gs, [], none,
              ⟨?_, trivial, ?_, ?_, ?_, ?_⟩, ?_, ?_⟩
            · show FRAME_HEADER + g.size < s.payloadSize
              omega
            · show (FRAME_HEADER + g.size) % 16 = 0
              omega
            · have h9 := hlinL2
              rw [Nat.zero_add] at h9
              exact h9
            · exact fun x hx => hokL x (List.mem_cons_of_mem g hx)
            · intro x hx
              cases hx
            · show FRAME_HEADER + g.size + segsBytes gs ≤ s.payloadSize
              omega
            · refine Or.inl ?_
              show s.writePos = FRAME_HEADER + g.size + segsBytes gs
              simp only [segsBytes_cons] at hW
              omega
            · show s.semW - 1 ≤ List.length gs + List.length ([] : List Seg)
              simp only [List.length_cons, List.length_nil] at hsem ⊢
              omega
            · show add64 s.free (sub64 s.payloadSize s.readPos) +
                (segsBytes gs + segsBytes [] +
                  (s.held ++ [FRAME_HEADER + g.size]).sum +
                  ringWaste s.payloadSize (FRAME_HEADER + g.size) gs []) = s.payloadSize
              simp only [segsBytes_nil, ringWaste, List.sum_append, List.sum_cons,
                List.sum_nil]
              simp only [segsBytes_nil, segsBytes_cons, ringWaste] at heq
              rw [sub64_eq s.payloadSize s.readPos (by omega) h2,
                add64_eq s.free (s.payloadSize - s.readPos) (by omega)]
              omega
          · -- marker consumed, then SequenceError on the wrapped frame
            have hp := readParse_front_mismatch
              (consumeWrap { s with semW := s.semW - 1 }) hseq2
            rw [stepReadSys_err s _ _ (hfo.trans (hbody.trans hp))]
            refine ⟨h1, h2, h3, h4, ?_, ?_, h7, h8, g :: gs, [], none,
              ⟨?_, trivial, hokL, ?_, ?_, ?_⟩, ?_, ?_⟩
            · exact h1
            · exact Nat.zero_mod 16
            · exact ⟨hg0, hlinL2⟩
            · intro x hx
              cases hx
            · show (0 : Nat) + segsBytes (g :: gs) ≤ s.payloadSize
              simp only [segsBytes_cons]
              omega
            · refine Or.inl ?_
              show s.writePos = 0 + segsBytes (g :: gs)
              omega
            · show s.semW - 1 ≤ List.length (g :: gs) + List.length ([] : List Seg)
              simp only [List.length_cons, List.length_nil] at hsem ⊢
              omega
            · show add64 s.free (sub64 s.payloadSize s.readPos) +
                (segsBytes (g :: gs) + segsBytes [] + s.held.sum +
                  ringWaste s.payloadSize 0 (g :: gs) []) = s.payloadSize
              simp only [segsBytes_nil, ringWaste] at heq ⊢
              rw [sub64_eq s.payloadSize s.readPos (by omega) h2,
                add64_eq s.free (s.payloadSize - s.readPos) (by omega)]
              omega

/-- Schedule refuting C2's literal commit-preservation claim on a 128-byte
payload region: two 48-byte frames fill the ring (`free = 0`), the reader
consumes frame 1 but its `Frame` object stays alive (release token 64
outstanding, nothing credited yet), and then a third 48-byte write passes
the position-based space check of writer.cpp:132-149 (`write_pos = read_pos
= 64`, which the guard cannot tell from an empty ring) even though its
64-byte debit exceeds `payload_free_bytes = 0`. -/
def c2Cmds : List Cmd :=
  [.write (List.replicate 48 0), .write (List.replicate 48 0), .read,
   .write (List.replicate 48 0)]

set_option maxRecDepth 10000 in
set_option maxHeartbeats 4000000 in
/-- C2 counterexample: after the `c2Cmds` schedule no exception was thrown,
one release token of 64 bytes is outstanding, and the third commit's
`payload_free_bytes -= total_size` (writer.cpp:216) has wrapped below zero
to `2^64 − 64`; since `payload_free_bytes` alone already exceeds
`payload_size = 128`, no nonnegative count of unread or wasted bytes can
make the claimed equation `free + pending + waste = payload_size` hold, so
a writer commit does not always preserve it. -/
theorem writer_guard_breaks_free_accounting :
    (runCmds (initRun 128) c2Cmds).halted = false ∧
    (runCmds (initRun 128) c2Cmds).sys.held = [64] ∧
    (runCmds (initRun 128) c2Cmds).sys.free = U64 - 64 ∧
    128 < (runCmds (initRun 128) c2Cmds).sys.free := by
  decide

/-- C2 (amended): under the safe-write discipline — the writer commits only
when the debit (frame total `16 + size` plus, on the wrap branch, the wasted
tail `payload_size − payload_write_pos`) does not exceed the current
`payload_free_bytes`, with nonempty 16-byte-aligned frames in a 16-aligned
region — every state reachable from a fresh buffer through writer commits,
reader `read_frame` calls and `Frame` releases satisfies the accounting
equation carried by `InvC2`: `payload_free_bytes` plus the bytes (headers
included) of committed-but-unread frames, plus the release tokens of
delivered-but-unreleased frames, plus the unreclaimed wrap-tail waste,
equals `payload_size`; in particular every writer commit, every wrap-marker
consumption (which credits `payload_size − payload_read_pos`) and every
frame release (which credits its token) preserves the equation. -/
theorem free_bytes_accounting_invariant (n : Nat) (s : SysState)
    (h0 : 0 < n) (h1 : n < U64) (h2 : n % 16 = 0)
    (hr : ReachSafe (initState n) s) : InvC2 s := by
  induction hr with
  | refl => exact invC2_init n h0 h1 h2
  | step t u hts hz ih =>
    cases hz with
    | write data hne hal hsz hguard hsafe =>
      exact invC2_write t data hne hal hsz hguard hsafe ih
    | read => exact invC2_read t ih
    | release i => exact invC2_release t i ih

/-- The amended C2 theorem at a concrete safe run: a 16-byte frame is
committed into a fresh 64-byte region and then read. -/
theorem free_bytes_accounting_invariant_witness :
    InvC2 (stepReadSys (writeCommit (initState 64) (List.replicate 16 1))) :=
  free_bytes_accounting_invariant 64 _ (by decide) (by decide) (by decide)
    (ReachSafe.step _ _ _
      (ReachSafe.step _ _ _ (ReachSafe.refl (initState 64))
        (ZStep.write (initState 64) (List.replicate 16 1) (by decide) (by decide)
          (by decide) (by decide) (by decide)))
      (ZStep.read _))

end ZeroBuffer
